import Mathlib

/-!
Shallow embedding of the canvas-editor document/store core:
the canvas store (selection, clipboard, element CRUD, z-order, crop mode)
from src/store/canvasStore.ts, the history store (undo/redo snapshots)
from the history store module, and the data model from the canvas types
module.  The editor store (project container with `updatePage` and
`loadProject`) is not part of the provided sources; it is modelled from
the specification where noted.

JavaScript numbers are modelled as rationals (ℚ); every arithmetic
operation performed by the code stays within ℚ.  `crypto.randomUUID` is
modelled by a deterministic fresh-name counter threaded through the
store; `JSON.parse(JSON.stringify(x))` deep copies are the identity on
the immutable model values, and a serialized `projectSnapshot` is
modelled as the project value itself (the document is plain
JSON-serializable data).
-/

namespace ImageEdit

/-- Discriminant of the `CanvasElement` tagged union (the variants the
store's operations construct: 'text', 'image', 'shape'). -/
inductive ElemType where
  | text
  | image
  | shape
deriving DecidableEq, Repr

/-- Image source: either an ordinary URL / data-URL string, or the
data-URL produced by rasterizing a sub-rectangle of another source on a
temporary canvas (`tempCanvas.toDataURL` in `applyCrop`).  The cropped
variant records which source rectangle was drawn, which is exactly the
information the produced data-URL encodes. -/
inductive ImageSrc where
  | url (s : String)
  | cropped (orig : ImageSrc) (sx sy sw sh : ℚ)
deriving DecidableEq, Repr

/-- Transform record from the canvas types module. -/
structure Transform where
  x : ℚ
  y : ℚ
  width : ℚ
  height : ℚ
  scaleX : ℚ
  scaleY : ℚ
  rotation : ℚ
  skewX : ℚ
  skewY : ℚ
  originX : String
  originY : String
deriving DecidableEq, Repr

/-- Style record (shadow is carried as an opaque optional payload; its
inner structure is never inspected by the store code under proof). -/
structure Style where
  fill : Option String
  stroke : Option String
  strokeWidth : ℚ
  opacity : ℚ
  shadow : Option String
  cornerRadius : ℚ
deriving DecidableEq, Repr

/-- Crop rectangle (`CropData` for elements, `CropBounds` for the crop
session; both are plain x/y/width/height records). -/
structure CropRect where
  x : ℚ
  y : ℚ
  width : ℚ
  height : ℚ
deriving DecidableEq, Repr

/-- Canvas element.  The TS source is a tagged union
(Text/Image/Shape/…); the model carries the union of the fields the
store's operations read or write, with variant-specific fields defaulted
for the other variants.  Fields of the text/image sub-records that no
operation under proof touches (textStyle, filters, effect, colorReplace,
crossOrigin, editable, metadata) are elided. -/
structure Element where
  id : String
  type : ElemType
  name : String
  transform : Transform
  style : Style
  locked : Bool
  visible : Bool
  selectable : Bool
  zIndex : ℚ
  content : String := ""
  src : ImageSrc := ImageSrc.url ""
  originalSrc : ImageSrc := ImageSrc.url ""
  crop : Option CropRect := none
  shapeType : String := ""
deriving DecidableEq, Repr

/-- Modelled from the spec: a page of the project container — the store
only ever reads and replaces a page's `elements` list, looked up by page
id. -/
structure Page where
  id : String
  elements : List Element
deriving DecidableEq, Repr

/-- Modelled from the spec: the project held by the editor store (the
page/project container is out of the provided sources); only the page
list and the active page id are relevant to the store under proof. -/
structure Project where
  pages : List Page
  activePageId : String
deriving DecidableEq, Repr

/-- History entry.  `id`/`timestamp` are metadata minted per entry
(`crypto.randomUUID()` / `Date.now()`); the timestamp is not read by any
logic under proof and is elided.  `projectSnapshot` models the
serialized-project JSON string by the project value it deserializes to. -/
structure HistoryEntry where
  id : String
  label : String
  projectSnapshot : Project
deriving DecidableEq, Repr

/-- Combined state of the canvas store, the history store and the
(spec-modelled) editor store's project slot, plus the fresh-name counter
that models `crypto.randomUUID`. -/
structure Store where
  selectedIds : List String
  hoveredId : Option String
  clipboard : List Element
  isDragging : Bool
  isResizing : Bool
  isRotating : Bool
  cropMode : Bool
  cropBounds : Option CropRect
  cropElementId : Option String
  project : Option Project
  past : List HistoryEntry
  future : List HistoryEntry
  maxHistorySize : Nat
  isUndoing : Bool
  isRedoing : Bool
  fresh : Nat
deriving DecidableEq, Repr

/-- Deterministic stand-in for `crypto.randomUUID()`. -/
def freshId (n : Nat) : String :=
  "uuid-" ++ toString n

/-- Initial store state (canvas store and history store initial values),
parametrized by whatever project the editor store currently holds. -/
def initStore (proj : Option Project) : Store where
  selectedIds := []
  hoveredId := none
  clipboard := []
  isDragging := false
  isResizing := false
  isRotating := false
  cropMode := false
  cropBounds := none
  cropElementId := none
  project := proj
  past := []
  future := []
  maxHistorySize := 50
  isUndoing := false
  isRedoing := false
  fresh := 0

/-- Active page lookup, as in `getActivePageElements`:
`project.pages.find(p => p.id === project.activePageId)`. -/
def findPage (pages : List Page) (pid : String) : Option Page :=
  pages.find? (fun p => p.id == pid)

/-- Elements of the active page (`getActivePageElements`): empty when no
project or no matching page. -/
def activeElements (s : Store) : List Element :=
  match s.project with
  | none => []
  | some pr =>
    match findPage pr.pages pr.activePageId with
    | none => []
    | some pg => pg.elements

/-- Ids present on the active page. -/
def activeIds (s : Store) : List String :=
  (activeElements s).map (fun e => e.id)

/-- Modelled from the spec: `editorStore.updatePage(pageId, {elements})`
replaces the element list of the page with the given id (the store's
only use of `updatePage`). -/
def setPageElems (pages : List Page) (pid : String) (els : List Element) : List Page :=
  pages.map (fun p => if p.id == pid then { p with elements := els } else p)

/-- Replace the active page's element list through `updatePage`; no-op
when the editor holds no project, mirroring each call site's
`if (!editorStore.project) return` guard. -/
def setActiveElements (s : Store) (els : List Element) : Store :=
  match s.project with
  | none => s
  | some pr =>
    { s with project := some { pr with pages := setPageElems pr.pages pr.activePageId els } }

/-- Modelled from the spec: `editorStore.loadProject` performs a
whole-document restore of the given project. -/
def loadProject (pr : Project) (s : Store) : Store :=
  { s with project := some pr }

/-- Defaults factory `createDefaultTransform()`. -/
def createDefaultTransform : Transform where
  x := 0
  y := 0
  width := 100
  height := 100
  scaleX := 1
  scaleY := 1
  rotation := 0
  skewX := 0
  skewY := 0
  originX := "center"
  originY := "center"

/-- Defaults factory `createDefaultStyle()`. -/
def createDefaultStyle : Style where
  fill := some "#000000"
  stroke := none
  strokeWidth := 0
  opacity := 1
  shadow := none
  cornerRadius := 0

/-- Partial<CanvasElement>: an optional override per modelled field.
This is both the `updates` argument of `updateElement` and the `options`
argument of the add* constructors (whose TS types pin `type`, so the
constructors ignore a patch's `type`).  A TS `Partial` makes each field
optional but, when present, whole — in particular a supplied `transform`
or `style` is a complete record. -/
structure ElementPatch where
  id : Option String := none
  type : Option ElemType := none
  name : Option String := none
  transform : Option Transform := none
  style : Option Style := none
  locked : Option Bool := none
  visible : Option Bool := none
  selectable : Option Bool := none
  zIndex : Option ℚ := none
  content : Option String := none
  src : Option ImageSrc := none
  originalSrc : Option ImageSrc := none
  crop : Option (Option CropRect) := none
  shapeType : Option String := none
deriving DecidableEq, Repr

/-- JS object spread `{ ...el, ...updates }` for an element and a
partial update. -/
def mergeElement (el : Element) (u : ElementPatch) : Element where
  id := u.id.getD el.id
  type := u.type.getD el.type
  name := u.name.getD el.name
  transform := u.transform.getD el.transform
  style := u.style.getD el.style
  locked := u.locked.getD el.locked
  visible := u.visible.getD el.visible
  selectable := u.selectable.getD el.selectable
  zIndex := u.zIndex.getD el.zIndex
  content := u.content.getD el.content
  src := u.src.getD el.src
  originalSrc := u.originalSrc.getD el.originalSrc
  crop := u.crop.getD el.crop
  shapeType := u.shapeType.getD el.shapeType

/-- Partial<Transform>, as taken by `updateTransform`. -/
structure TransformPatch where
  x : Option ℚ := none
  y : Option ℚ := none
  width : Option ℚ := none
  height : Option ℚ := none
  scaleX : Option ℚ := none
  scaleY : Option ℚ := none
  rotation : Option ℚ := none
  skewX : Option ℚ := none
  skewY : Option ℚ := none
  originX : Option String := none
  originY : Option String := none
deriving DecidableEq, Repr

/-- JS spread `{ ...element.transform, ...transform }`. -/
def mergeTransform (t : Transform) (u : TransformPatch) : Transform where
  x := u.x.getD t.x
  y := u.y.getD t.y
  width := u.width.getD t.width
  height := u.height.getD t.height
  scaleX := u.scaleX.getD t.scaleX
  scaleY := u.scaleY.getD t.scaleY
  rotation := u.rotation.getD t.rotation
  skewX := u.skewX.getD t.skewX
  skewY := u.skewY.getD t.skewY
  originX := u.originX.getD t.originX
  originY := u.originY.getD t.originY

/-- Partial<Style>, as taken by `updateStyle`. -/
structure StylePatch where
  fill : Option (Option String) := none
  stroke : Option (Option String) := none
  strokeWidth : Option ℚ := none
  opacity : Option ℚ := none
  shadow : Option (Option String) := none
  cornerRadius : Option ℚ := none
deriving DecidableEq, Repr

/-- JS spread `{ ...element.style, ...style }`. -/
def mergeStyle (st : Style) (u : StylePatch) : Style where
  fill := u.fill.getD st.fill
  stroke := u.stroke.getD st.stroke
  strokeWidth := u.strokeWidth.getD st.strokeWidth
  opacity := u.opacity.getD st.opacity
  shadow := u.shadow.getD st.shadow
  cornerRadius := u.cornerRadius.getD st.cornerRadius

/-- JS `past.slice(-max)` as used for history truncation.  `slice(-0)`
is `slice(0)`, the whole array. -/
def jsSliceLast (m : Nat) (l : List HistoryEntry) : List HistoryEntry :=
  if m = 0 then l else l.drop (l.length - m)

/-- History truncation step of `pushState` / `setMaxHistorySize`:
`if (past.length > max) past = past.slice(-max)`. -/
def trimHistory (m : Nat) (l : List HistoryEntry) : List HistoryEntry :=
  if m < l.length then jsSliceLast m l else l

/-- History store `pushState(label)`: guarded on a loaded project and on
no undo/redo being in flight; snapshots the current project, appends to
`past`, truncates `past` to `maxHistorySize` from the end, clears
`future`. -/
def pushState (label : String) (s : Store) : Store :=
  match s.project with
  | none => s
  | some pr =>
    if s.isUndoing || s.isRedoing then s
    else
      let entry : HistoryEntry := { id := freshId s.fresh, label := label, projectSnapshot := pr }
      { s with
        past := trimHistory s.maxHistorySize (s.past ++ [entry])
        future := []
        fresh := s.fresh + 1 }

/-- History store `undo()`: no-op on empty `past` or no project;
otherwise snapshots the current project, prepends that snapshot to
`future`, restores the most recent `past` entry via `loadProject`, and
pops it from `past`.  The transient `isUndoing` flag is set and cleared
within the call; its net effect on the state is nil. -/
def undo (s : Store) : Store :=
  if s.past.length = 0 then s
  else
    match s.project with
    | none => s
    | some pr =>
      let currentEntry : HistoryEntry := { id := freshId s.fresh, label := "Current", projectSnapshot := pr }
      match s.past.getLast? with
      | none => s
      | some previousEntry =>
        let s' := loadProject previousEntry.projectSnapshot s
        { s' with
          future := currentEntry :: s'.future
          past := s'.past.dropLast
          fresh := s'.fresh + 1 }

/-- History store `redo()`: mirror of `undo` using `future`. -/
def redo (s : Store) : Store :=
  match s.future with
  | [] => s
  | nextEntry :: rest =>
    match s.project with
    | none => s
    | some pr =>
      let currentEntry : HistoryEntry := { id := freshId s.fresh, label := "Current", projectSnapshot := pr }
      let s' := loadProject nextEntry.projectSnapshot s
      { s' with
        past := s'.past ++ [currentEntry]
        future := rest
        fresh := s'.fresh + 1 }

/-- History store `setMaxHistorySize(size)`: clamps to [10, 200] and
trims `past` if necessary.  The argument is kept as a natural number;
the clamp makes the stored size at least 10. -/
def setMaxHistorySize (size : Nat) (s : Store) : Store :=
  let m := max 10 (min 200 size)
  { s with
    maxHistorySize := m
    past := trimHistory m s.past }

/-- String form of the `type` discriminant, as used in history labels. -/
def typeName : ElemType → String
  | ElemType.text => "text"
  | ElemType.image => "image"
  | ElemType.shape => "shape"

/-- Deferred history push (`pushHistory` helper): the snapshot is taken
one tick after the mutation, so it is modelled as `pushState` applied to
the post-mutation store. -/
def pushHistoryAfter (label : String) (s : Store) : Store :=
  pushState label s

/-- Canvas store `select(id | ids, addToSelection)`. -/
def select (ids : List String) (addToSelection : Bool) (s : Store) : Store :=
  if addToSelection then
    { s with selectedIds := s.selectedIds ++ ids.filter (fun i => !(s.selectedIds.contains i)) }
  else
    { s with selectedIds := ids }

/-- Canvas store `deselect(id?)`. -/
def deselect (id : Option String) (s : Store) : Store :=
  match id with
  | some i => { s with selectedIds := s.selectedIds.filter (fun x => !(x == i)) }
  | none => { s with selectedIds := [] }

/-- Canvas store `selectAll()`. -/
def selectAll (s : Store) : Store :=
  { s with
    selectedIds := ((activeElements s).filter (fun e => !e.locked && e.selectable)).map (fun e => e.id) }

/-- Canvas store `addElement(element)`: appends to the active page,
makes the element the sole selection, then records history ("Add
{type}").  No-op when no project is loaded. -/
def addElement (element : Element) (s : Store) : Store :=
  match s.project with
  | none => s
  | some _ =>
    let s1 := setActiveElements s (activeElements s ++ [element])
    let s2 := { s1 with selectedIds := [element.id] }
    pushHistoryAfter ("Add " ++ typeName element.type) s2

/-- The `Math.max(...elements.map(e => e.zIndex))` fold — only evaluated by the
add*/paste constructors behind a nonemptiness guard, and by the z-order
operations (where, on an empty page, the JS value -Infinity is never
observed because `updateElement` then matches no element; the model
returns 0 in that unobserved case). -/
def maxZRaw : List Element → ℚ
  | [] => 0
  | e :: es => es.foldl (fun a x => max a x.zIndex) e.zIndex

/-- Dual of `maxZRaw` for `sendToBack`. -/
def minZRaw : List Element → ℚ
  | [] => 0
  | e :: es => es.foldl (fun a x => min a x.zIndex) e.zIndex

/-- The `elements.length > 0 ? Math.max(...) : 0` ternary of the
add*/paste constructors. -/
def maxZOrZero (l : List Element) : ℚ :=
  if l.isEmpty then 0 else maxZRaw l

/-- Canvas store `addTextElement(options?)`: mints an id, computes the
default z-index from the current page maximum, builds the text element
(caller options spread last, overriding any field), delegates to
`addElement`, and returns the minted id (the minted one even if
`options.id` overrode the element's id). -/
def addTextElement (options : ElementPatch) (s : Store) : String × Store :=
  let id := freshId s.fresh
  let s0 := { s with fresh := s.fresh + 1 }
  let elements := activeElements s0
  let maxZIndex := maxZOrZero elements
  let textElement : Element :=
    { id := options.id.getD id
      type := ElemType.text
      name := options.name.getD "Text"
      content := options.content.getD "Click to edit text"
      transform := options.transform.getD createDefaultTransform
      style := options.style.getD { createDefaultStyle with fill := some "#1a1a1a" }
      locked := options.locked.getD false
      visible := options.visible.getD true
      selectable := options.selectable.getD true
      zIndex := options.zIndex.getD (maxZIndex + 1) }
  (id, addElement textElement s0)

/-- Canvas store `addImageElement(src, options?)`. -/
def addImageElement (src : ImageSrc) (options : ElementPatch) (s : Store) : String × Store :=
  let id := freshId s.fresh
  let s0 := { s with fresh := s.fresh + 1 }
  let elements := activeElements s0
  let maxZIndex := maxZOrZero elements
  let imageElement : Element :=
    { id := options.id.getD id
      type := ElemType.image
      name := options.name.getD "Image"
      src := options.src.getD src
      originalSrc := options.originalSrc.getD src
      transform := options.transform.getD { createDefaultTransform with width := 200, height := 200 }
      style := options.style.getD { createDefaultStyle with fill := none }
      crop := options.crop.getD none
      locked := options.locked.getD false
      visible := options.visible.getD true
      selectable := options.selectable.getD true
      zIndex := options.zIndex.getD (maxZIndex + 1) }
  (id, addElement imageElement s0)

/-- Canvas store `addShapeElement(shapeType, options?)`. -/
def addShapeElement (shapeType : String) (options : ElementPatch) (s : Store) : String × Store :=
  let id := freshId s.fresh
  let s0 := { s with fresh := s.fresh + 1 }
  let elements := activeElements s0
  let maxZIndex := maxZOrZero elements
  let shapeElement : Element :=
    { id := options.id.getD id
      type := ElemType.shape
      name := options.name.getD ("Shape (" ++ shapeType ++ ")")
      shapeType := options.shapeType.getD shapeType
      transform := options.transform.getD createDefaultTransform
      style := options.style.getD { createDefaultStyle with fill := some "#4A90D9" }
      locked := options.locked.getD false
      visible := options.visible.getD true
      selectable := options.selectable.getD true
      zIndex := options.zIndex.getD (maxZIndex + 1) }
  (id, addElement shapeElement s0)

/-- Canvas store `updateElement(id, updates)`: shallow-merges the
updates into every element whose id matches; writes the mapped list back
through `updatePage`.  Pushes no history and is a no-op without a
project. -/
def updateElement (id : String) (updates : ElementPatch) (s : Store) : Store :=
  match s.project with
  | none => s
  | some _ =>
    let elements := activeElements s
    let updatedElements := elements.map (fun el => if el.id == id then mergeElement el updates else el)
    setActiveElements s updatedElements

/-- Canvas store `removeElement(id | ids)`: filters matching elements
out of the page, prunes them from the selection, records history with a
count label. -/
def removeElement (ids : List String) (s : Store) : Store :=
  match s.project with
  | none => s
  | some _ =>
    let elements := activeElements s
    let updatedElements := elements.filter (fun el => !(ids.contains el.id))
    let s1 := setActiveElements s updatedElements
    let s2 := { s1 with selectedIds := s1.selectedIds.filter (fun i => !(ids.contains i)) }
    pushHistoryAfter ("Delete " ++ toString ids.length ++ " element(s)") s2

/-- Whitespace test of the regex class `\s` (modelled on the ASCII
whitespace the element names at hand contain). -/
def isWS (c : Char) : Bool :=
  c.isWhitespace

/-- Lowered characters of "(copy)", reversed — the case-insensitive
suffix pattern of `/\s*\(Copy\)$/i`. -/
def copyRev : List Char :=
  [')', 'y', 'p', 'o', 'c', '(']

/-- JS `name.replace(/\s*\(Copy\)$/i, '')`: when the string ends with
"(Copy)" case-insensitively, removes that suffix together with all
whitespace immediately preceding it; otherwise leaves the string
unchanged. -/
def stripCopySuffix (s : String) : String :=
  let r := s.data.reverse
  if (r.take 6).map Char.toLower = copyRev then
    String.mk ((r.drop 6).dropWhile isWS).reverse
  else s

/-- Name given to a duplicate:
`el.name.replace(/\s*\(Copy\)$/i, '') + " (Copy)"` (the template
literal in `duplicateElements`). -/
def duplicateName (n : String) : String :=
  stripCopySuffix n ++ " (Copy)"

/-- Canvas store `duplicateElements(ids?)`: defaults to the selection;
returns `[]` untouched if that is empty; deep-clones each matched
element with a fresh id, the "(Copy)" name and a (20,20) offset, appends
them to the page (when a project exists), selects the new ids and
records history.  Returns the new ids. -/
def duplicateElements (ids : Option (List String)) (s : Store) : List String × Store :=
  let targetIds := ids.getD s.selectedIds
  if targetIds.isEmpty then ([], s)
  else
    let elements := activeElements s
    let elementsToDuplicate := elements.filter (fun el => targetIds.contains el.id)
    let newElements := elementsToDuplicate.enum.map (fun ke =>
      { ke.2 with
        id := freshId (s.fresh + ke.1)
        name := duplicateName ke.2.name
        transform := { ke.2.transform with x := ke.2.transform.x + 20, y := ke.2.transform.y + 20 } })
    let duplicatedIds := newElements.map (fun e => e.id)
    let s0 := { s with fresh := s.fresh + elementsToDuplicate.length }
    let s1 :=
      match s0.project with
      | some _ => setActiveElements s0 (elements ++ newElements)
      | none => s0
    let s2 := { s1 with selectedIds := duplicatedIds }
    let s3 := pushHistoryAfter ("Duplicate " ++ toString duplicatedIds.length ++ " element(s)") s2
    (duplicatedIds, s3)

/-- Canvas store `copy()`: deep-snapshot of the selected elements into
the clipboard (the JSON round-trip deep copy is the identity on model
values). -/
def copy (s : Store) : Store :=
  let selectedElements := (activeElements s).filter (fun el => s.selectedIds.contains el.id)
  { s with clipboard := selectedElements }

/-- Canvas store `cut()`: `copy()` then `removeElement(selectedIds)`. -/
def cut (s : Store) : Store :=
  let s1 := copy s
  removeElement s1.selectedIds s1

/-- Canvas store `paste()`: no-op on empty clipboard; otherwise clones
every clipboard entry with a fresh id, offsets (x,y) by (20,20) from the
stored clipboard transform, assigns `maxZIndex + index + 1`, appends to
the page (when a project exists) and selects the pasted ids.  The
clipboard itself is not modified. -/
def paste (s : Store) : Store :=
  if s.clipboard.isEmpty then s
  else
    let elements := activeElements s
    let maxZIndex := maxZOrZero elements
    let pastedElements := s.clipboard.enum.map (fun ke =>
      { ke.2 with
        id := freshId (s.fresh + ke.1)
        transform := { ke.2.transform with x := ke.2.transform.x + 20, y := ke.2.transform.y + 20 }
        zIndex := maxZIndex + ke.1 + 1 })
    let pastedIds := pastedElements.map (fun e => e.id)
    let s0 := { s with fresh := s.fresh + s.clipboard.length }
    let s1 :=
      match s0.project with
      | some _ => setActiveElements s0 (elements ++ pastedElements)
      | none => s0
    { s1 with selectedIds := pastedIds }

/-- Canvas store `getElement(id)`. -/
def getElement (id : String) (s : Store) : Option Element :=
  (activeElements s).find? (fun el => el.id == id)

/-- Canvas store `updateTransform(id, transform)`: merge into the found
element's transform, through `updateElement`; nothing when the id is
absent. -/
def updateTransform (id : String) (t : TransformPatch) (s : Store) : Store :=
  match (activeElements s).find? (fun el => el.id == id) with
  | none => s
  | some element =>
    updateElement id { transform := some (mergeTransform element.transform t) } s

/-- Canvas store `updateStyle(id, style)`. -/
def updateStyle (id : String) (st : StylePatch) (s : Store) : Store :=
  match (activeElements s).find? (fun el => el.id == id) with
  | none => s
  | some element =>
    updateElement id { style := some (mergeStyle element.style st) } s

/-- Canvas store `bringToFront(id)`: sets the element's z-index to the
page maximum plus one. -/
def bringToFront (id : String) (s : Store) : Store :=
  let elements := activeElements s
  updateElement id { zIndex := some (maxZRaw elements + 1) } s

/-- Canvas store `sendToBack(id)`: page minimum minus one. -/
def sendToBack (id : String) (s : Store) : Store :=
  let elements := activeElements s
  updateElement id { zIndex := some (minZRaw elements - 1) } s

/-- Canvas store `bringForward(id)`: own z-index plus one, when the
element exists. -/
def bringForward (id : String) (s : Store) : Store :=
  match (activeElements s).find? (fun el => el.id == id) with
  | none => s
  | some element => updateElement id { zIndex := some (element.zIndex + 1) } s

/-- Canvas store `sendBackward(id)`. -/
def sendBackward (id : String) (s : Store) : Store :=
  match (activeElements s).find? (fun el => el.id == id) with
  | none => s
  | some element => updateElement id { zIndex := some (element.zIndex - 1) } s

/-- Canvas store `lockElement(id)`: sets locked, clears selectable, and
prunes the id from the selection. -/
def lockElement (id : String) (s : Store) : Store :=
  let s1 := updateElement id { locked := some true, selectable := some false } s
  { s1 with selectedIds := s1.selectedIds.filter (fun i => !(i == id)) }

/-- Canvas store `unlockElement(id)`. -/
def unlockElement (id : String) (s : Store) : Store :=
  updateElement id { locked := some false, selectable := some true } s

/-- Canvas store `toggleVisibility(id)`. -/
def toggleVisibility (id : String) (s : Store) : Store :=
  match (activeElements s).find? (fun el => el.id == id) with
  | none => s
  | some element => updateElement id { visible := some (!element.visible) } s

/-- Canvas store `setCropMode(enabled, elementId?)`: entering crop mode
requires an existing image element and initializes the crop bounds to
the element's current on-screen bounding box; `setCropMode(false)` (or a
missing elementId) clears the session.  When enabled with an id whose
element is missing or not an image, nothing changes. -/
def setCropMode (enabled : Bool) (elementId : Option String) (s : Store) : Store :=
  match enabled, elementId with
  | true, some eid =>
    (match getElement eid s with
     | some element =>
       if element.type = ElemType.image then
         let width := element.transform.width * |element.transform.scaleX|
         let height := element.transform.height * |element.transform.scaleY|
         { s with
           cropMode := true
           cropElementId := some eid
           cropBounds := some
             { x := element.transform.x - width / 2
               y := element.transform.y - height / 2
               width := width
               height := height } }
       else s
     | none => s)
  | _, _ =>
    { s with cropMode := false, cropBounds := none, cropElementId := none }

/-- Canvas store `setCropBounds(bounds)`. -/
def setCropBounds (bounds : CropRect) (s : Store) : Store :=
  { s with cropBounds := some bounds }

/-- State of the Fabric.js image object mirroring the element
(`fabricCanvas.getObjectById(cropElementId)`), as read by `applyCrop`. -/
structure FabricImg where
  left : ℚ
  top : ℚ
  scaleX : ℚ
  scaleY : ℚ
  width : ℚ
  height : ℚ
  angle : ℚ
  opacity : ℚ
deriving DecidableEq, Repr

/-- External resources `applyCrop` depends on: the render object, the
source bitmap (`getImageElement`), a 2D drawing context for the
temporary canvas, and whether `fabric.Image.fromURL` delivers the
cropped image (its callback never fires otherwise). -/
structure CropEnv where
  fabricObj : Option FabricImg
  imgElement : Bool
  ctx : Bool
  imageLoads : Bool
deriving DecidableEq, Repr

/-- JS `q || 1`: 0 falls back to 1 (`fabricObj.scaleX || 1`). -/
def jsOr1 (q : ℚ) : ℚ :=
  if q = 0 then 1 else q

/-- Canvas store `applyCrop()`.  Guard order follows the source: crop
bounds and element id present, element found and an image, render
object present, source bitmap present, 2D context obtainable; each
failed guard returns with the store untouched.  On success: the crop
rectangle is converted into image-local coordinates from the fabric
object's state, the cropped bitmap is rasterized to a data URL, crop
mode is cleared, and (once `fromURL` delivers) the element's src and
transform are replaced and one "Crop image" history entry is recorded.
The body's final crop-state clearing runs right after `fromURL` is
initiated, so it precedes the asynchronous element update. -/
def applyCrop (env : CropEnv) (s : Store) : Store :=
  match s.cropBounds, s.cropElementId with
  | some cropBounds, some cropElementId =>
    (match getElement cropElementId s with
     | none => s
     | some element =>
       if element.type = ElemType.image then
         match env.fabricObj with
         | none => s
         | some fabricObj =>
           if env.imgElement then
             if env.ctx then
               let imgLeft := fabricObj.left
               let imgTop := fabricObj.top
               let imgScaleX := |jsOr1 fabricObj.scaleX|
               let imgScaleY := |jsOr1 fabricObj.scaleY|
               let imgWidth := fabricObj.width
               let imgHeight := fabricObj.height
               let imgActualLeft := imgLeft - (imgWidth * imgScaleX) / 2
               let imgActualTop := imgTop - (imgHeight * imgScaleY) / 2
               let cropX := (cropBounds.x - imgActualLeft) / imgScaleX
               let cropY := (cropBounds.y - imgActualTop) / imgScaleY
               let cropWidth := cropBounds.width / imgScaleX
               let cropHeight := cropBounds.height / imgScaleY
               let croppedDataUrl := ImageSrc.cropped element.src cropX cropY cropWidth cropHeight
               let newCenterX := cropBounds.x + cropBounds.width / 2
               let newCenterY := cropBounds.y + cropBounds.height / 2
               let sCleared := { s with cropMode := false, cropBounds := none, cropElementId := none }
               if env.imageLoads then
                 let sUpdated := updateElement cropElementId
                   { src := some croppedDataUrl
                     transform := some
                       { element.transform with
                         x := newCenterX
                         y := newCenterY
                         width := cropWidth
                         height := cropHeight
                         scaleX := imgScaleX * (if 0 ≤ element.transform.scaleX then 1 else -1)
                         scaleY := imgScaleY * (if 0 ≤ element.transform.scaleY then 1 else -1) }
                     crop := some none } sCleared
                 pushHistoryAfter "Crop image" sUpdated
               else sCleared
             else s
           else s
       else s)
  | _, _ => s

/-- Canvas store `cancelCrop()`. -/
def cancelCrop (s : Store) : Store :=
  { s with cropMode := false, cropBounds := none, cropElementId := none }

/-- Well-formedness of a project: the active page id resolves to a page
(the editor store is specified to keep a valid active page). -/
def WFproj (pr : Project) : Prop :=
  (findPage pr.pages pr.activePageId).isSome = true

instance (pr : Project) : Decidable (WFproj pr) := by
  unfold WFproj
  infer_instance

/-- Well-formedness of the store: whatever project is loaded is
well-formed. -/
def WF (s : Store) : Prop :=
  ∀ pr, s.project = some pr → WFproj pr

/-- Element add/remove operations quantified over by the selection
subset invariant. -/
inductive AddRemoveOp where
  | addEl (element : Element)
  | addText (options : ElementPatch)
  | addImage (src : ImageSrc) (options : ElementPatch)
  | addShape (shapeType : String) (options : ElementPatch)
  | remove (ids : List String)
deriving Repr

/-- Apply one add/remove operation (returned ids discarded, as for a UI
caller). -/
def applyAddRemove (op : AddRemoveOp) (s : Store) : Store :=
  match op with
  | AddRemoveOp.addEl element => addElement element s
  | AddRemoveOp.addText options => (addTextElement options s).2
  | AddRemoveOp.addImage src options => (addImageElement src options s).2
  | AddRemoveOp.addShape st options => (addShapeElement st options s).2
  | AddRemoveOp.remove ids => removeElement ids s

/-- Run a sequence of add/remove operations. -/
def runAddRemove (ops : List AddRemoveOp) (s : Store) : Store :=
  ops.foldl (fun st op => applyAddRemove op st) s

/-- Element-store operations covered by the no-op failure policy (the
document mutators of the canvas store, plus `paste`). -/
inductive StoreOp where
  | addEl (element : Element)
  | addText (options : ElementPatch)
  | addImage (src : ImageSrc) (options : ElementPatch)
  | addShape (shapeType : String) (options : ElementPatch)
  | update (id : String) (updates : ElementPatch)
  | remove (ids : List String)
  | dup (ids : Option (List String))
  | pasteOp
  | updTrans (id : String) (t : TransformPatch)
  | updStyle (id : String) (st : StylePatch)
  | bringFront (id : String)
  | sendBack (id : String)
  | bringFwd (id : String)
  | sendBwd (id : String)
  | lock (id : String)
  | unlock (id : String)
  | toggleVis (id : String)
deriving Repr

/-- Apply one element-store operation. -/
def applyStoreOp (op : StoreOp) (s : Store) : Store :=
  match op with
  | StoreOp.addEl element => addElement element s
  | StoreOp.addText options => (addTextElement options s).2
  | StoreOp.addImage src options => (addImageElement src options s).2
  | StoreOp.addShape st options => (addShapeElement st options s).2
  | StoreOp.update id updates => updateElement id updates s
  | StoreOp.remove ids => removeElement ids s
  | StoreOp.dup ids => (duplicateElements ids s).2
  | StoreOp.pasteOp => paste s
  | StoreOp.updTrans id t => updateTransform id t s
  | StoreOp.updStyle id st => updateStyle id st s
  | StoreOp.bringFront id => bringToFront id s
  | StoreOp.sendBack id => sendToBack id s
  | StoreOp.bringFwd id => bringForward id s
  | StoreOp.sendBwd id => sendBackward id s
  | StoreOp.lock id => lockElement id s
  | StoreOp.unlock id => unlockElement id s
  | StoreOp.toggleVis id => toggleVisibility id s

/-- All the given ids are absent from the active page. -/
def idsAbsent (ids : List String) (s : Store) : Prop :=
  ∀ i ∈ ids, i ∉ activeIds s

/-- The failed-precondition situations of the no-op policy claim: no
loaded project, or the operation's element ids are not present on the
active page (for the operations that take ids). -/
def opPrecondFails (op : StoreOp) (s : Store) : Prop :=
  s.project = none ∨
    match op with
    | StoreOp.update id _ => id ∉ activeIds s
    | StoreOp.remove ids => idsAbsent ids s
    | StoreOp.dup (some ids) => idsAbsent ids s
    | StoreOp.dup none => idsAbsent s.selectedIds s
    | StoreOp.updTrans id _ => id ∉ activeIds s
    | StoreOp.updStyle id _ => id ∉ activeIds s
    | StoreOp.bringFront id => id ∉ activeIds s
    | StoreOp.sendBack id => id ∉ activeIds s
    | StoreOp.bringFwd id => id ∉ activeIds s
    | StoreOp.sendBwd id => id ∉ activeIds s
    | StoreOp.lock id => id ∉ activeIds s
    | StoreOp.unlock id => id ∉ activeIds s
    | StoreOp.toggleVis id => id ∉ activeIds s
    | _ => False

/-- Add requests for the z-order default-placement claim. -/
inductive AddReq where
  | text (options : ElementPatch)
  | image (src : ImageSrc) (options : ElementPatch)
  | shape (shapeType : String) (options : ElementPatch)
deriving Repr

/-- Options record of an add request. -/
def AddReq.options : AddReq → ElementPatch
  | AddReq.text o => o
  | AddReq.image _ o => o
  | AddReq.shape _ o => o

/-- Apply one add request. -/
def applyAddReq (req : AddReq) (s : Store) : Store :=
  match req with
  | AddReq.text o => (addTextElement o s).2
  | AddReq.image src o => (addImageElement src o s).2
  | AddReq.shape st o => (addShapeElement st o s).2

/-- Run a sequence of add requests. -/
def runAddReqs (reqs : List AddReq) (s : Store) : Store :=
  reqs.foldl (fun st req => applyAddReq req st) s

section Lemmas

/-- Finding the page after `setPageElems` yields the original page with
the replaced element list. -/
lemma find?_setPageElems (pages : List Page) (pid : String) (els : List Element) :
    (setPageElems pages pid els).find? (fun p => p.id == pid)
      = (pages.find? (fun p => p.id == pid)).map (fun p => { p with elements := els }) := by
  induction pages with
  | nil => rfl
  | cons p ps ih =>
    by_cases h : p.id = pid
    · simp [setPageElems, List.find?, h]
    · have hb : (p.id == pid) = false := by simp [h]
      simp [setPageElems, List.find?, hb] at ih ⊢
      exact ih

/-- The active element list only depends on the project slot. -/
lemma activeElements_congr {s₁ s₂ : Store} (h : s₁.project = s₂.project) :
    activeElements s₁ = activeElements s₂ := by
  unfold activeElements
  rw [h]

lemma activeElements_setActiveElements (s : Store) (els : List Element) (pr : Project)
    (hp : s.project = some pr) (hwf : WFproj pr) :
    activeElements (setActiveElements s els) = els := by
  obtain ⟨pg, hpg⟩ := Option.isSome_iff_exists.mp hwf
  simp [activeElements, setActiveElements, hp, findPage, find?_setPageElems]
  simp only [findPage] at hpg
  simp [hpg]

lemma setActiveElements_selectedIds (s : Store) (els : List Element) :
    (setActiveElements s els).selectedIds = s.selectedIds := by
  cases hp : s.project <;> simp [setActiveElements, hp]

lemma setActiveElements_clipboard (s : Store) (els : List Element) :
    (setActiveElements s els).clipboard = s.clipboard := by
  cases hp : s.project <;> simp [setActiveElements, hp]

lemma setActiveElements_past (s : Store) (els : List Element) :
    (setActiveElements s els).past = s.past := by
  cases hp : s.project <;> simp [setActiveElements, hp]

lemma setActiveElements_future (s : Store) (els : List Element) :
    (setActiveElements s els).future = s.future := by
  cases hp : s.project <;> simp [setActiveElements, hp]

lemma setActiveElements_fresh (s : Store) (els : List Element) :
    (setActiveElements s els).fresh = s.fresh := by
  cases hp : s.project <;> simp [setActiveElements, hp]

lemma setActiveElements_flags (s : Store) (els : List Element) :
    (setActiveElements s els).isUndoing = s.isUndoing
      ∧ (setActiveElements s els).isRedoing = s.isRedoing
      ∧ (setActiveElements s els).maxHistorySize = s.maxHistorySize := by
  cases hp : s.project <;> simp [setActiveElements, hp]

/-- Writing the active page keeps the project present and well-formed. -/
lemma setActiveElements_project (s : Store) (els : List Element) (pr : Project)
    (hp : s.project = some pr) :
    (setActiveElements s els).project
      = some { pr with pages := setPageElems pr.pages pr.activePageId els } := by
  simp [setActiveElements, hp]

lemma WFproj_setPageElems (pr : Project) (els : List Element) (hwf : WFproj pr) :
    WFproj { pr with pages := setPageElems pr.pages pr.activePageId els } := by
  simp only [WFproj, findPage] at *
  obtain ⟨pg, hpg⟩ := Option.isSome_iff_exists.mp hwf
  simp [find?_setPageElems, hpg]

lemma WF_setActiveElements (s : Store) (els : List Element) (hwf : WF s) :
    WF (setActiveElements s els) := by
  intro pr' hpr'
  cases hp : s.project with
  | none => simp [setActiveElements, hp] at hpr'
  | some pr =>
    rw [setActiveElements_project s els pr hp] at hpr'
    cases hpr'
    exact WFproj_setPageElems pr els (hwf pr hp)

lemma pushState_selectedIds (label : String) (s : Store) :
    (pushState label s).selectedIds = s.selectedIds := by
  cases hp : s.project with
  | none => simp [pushState, hp]
  | some pr =>
    by_cases hf : (s.isUndoing || s.isRedoing) = true
    · simp [pushState, hp, hf]
    · simp [pushState, hp, hf]

lemma pushState_clipboard (label : String) (s : Store) :
    (pushState label s).clipboard = s.clipboard := by
  cases hp : s.project with
  | none => simp [pushState, hp]
  | some pr =>
    by_cases hf : (s.isUndoing || s.isRedoing) = true
    · simp [pushState, hp, hf]
    · simp [pushState, hp, hf]

lemma pushState_project (label : String) (s : Store) :
    (pushState label s).project = s.project := by
  cases hp : s.project with
  | none => simp [pushState, hp]
  | some pr =>
    by_cases hf : (s.isUndoing || s.isRedoing) = true
    · simp [pushState, hp, hf]
    · simp [pushState, hp, hf]

lemma pushState_activeElements (label : String) (s : Store) :
    activeElements (pushState label s) = activeElements s :=
  activeElements_congr (pushState_project label s)

lemma pushState_crop (label : String) (s : Store) :
    (pushState label s).cropMode = s.cropMode
      ∧ (pushState label s).cropBounds = s.cropBounds
      ∧ (pushState label s).cropElementId = s.cropElementId := by
  cases hp : s.project with
  | none => simp [pushState, hp]
  | some pr =>
    by_cases hf : (s.isUndoing || s.isRedoing) = true
    · simp [pushState, hp, hf]
    · simp [pushState, hp, hf]

lemma WF_pushState (label : String) (s : Store) (hwf : WF s) :
    WF (pushState label s) := by
  intro pr hpr
  rw [pushState_project label s] at hpr
  exact hwf pr hpr

end Lemmas

section HistoryRoundTrip

/-- Concrete element used to exercise the history scenario. -/
def histDemoElement : Element where
  id := "e1"
  type := ElemType.shape
  name := "Shape (rectangle)"
  transform := createDefaultTransform
  style := { createDefaultStyle with fill := some "#4A90D9" }
  locked := false
  visible := true
  selectable := true
  zIndex := 1
  shapeType := "rectangle"

/-- Document state A: one empty page. -/
def histDocA : Project where
  pages := [{ id := "p", elements := [] }]
  activePageId := "p"

/-- Document state B: the page after adding `histDemoElement`. -/
def histDocB : Project where
  pages := [{ id := "p", elements := [histDemoElement] }]
  activePageId := "p"

/-- C1, history round-trip: FALSIFIED BY THE CODE.  Starting from
document A (with the initial-state history push the editor shell
performs on load), the mutation `addElement` commits document B and its
deferred history push completes, so the top `past` entry is the
post-mutation snapshot B.  `undo()` then restores that top entry — i.e.
document B itself, not A: the document after `undo()` still deep-equals
B and differs from A.  The claim (undo restores A) describes the
universally intended undo semantics; the code's push-after-mutation
convention combined with restoring the newest `past` entry is off by one
state. -/
theorem undo_after_mutation_keeps_mutated_document :
    (undo (addElement histDemoElement (pushState "Initial state" (initStore (some histDocA))))).project
        = (addElement histDemoElement (pushState "Initial state" (initStore (some histDocA)))).project
      ∧ (addElement histDemoElement (pushState "Initial state" (initStore (some histDocA)))).project
        = some histDocB
      ∧ some histDocB ≠ some histDocA
      ∧ (addElement histDemoElement (pushState "Initial state" (initStore (some histDocA)))).past.length
        = 2 := by
  refine ⟨?_, ?_, ?_, ?_⟩ <;> decide

end HistoryRoundTrip

section CropFailure

/-- Concrete image element for the crop scenarios. -/
def cropImageElement : Element where
  id := "img1"
  type := ElemType.image
  name := "Image"
  transform := { createDefaultTransform with width := 200, height := 200 }
  style := { createDefaultStyle with fill := none }
  locked := false
  visible := true
  selectable := true
  zIndex := 1
  src := ImageSrc.url "a.png"
  originalSrc := ImageSrc.url "a.png"

/-- Document with the single image element. -/
def cropDemoDoc : Project where
  pages := [{ id := "p", elements := [cropImageElement] }]
  activePageId := "p"

/-- Crop session whose target element has since been removed: enter
crop mode for the image, then delete it. -/
def cropOrphanStore : Store :=
  removeElement ["img1"] (setCropMode true (some "img1") (initStore (some cropDemoDoc)))

/-- Render object mirroring the demo image element's transform. -/
def cropFullFabric : FabricImg where
  left := 0
  top := 0
  scaleX := 1
  scaleY := 1
  width := 200
  height := 200
  angle := 0
  opacity := 1

/-- Fully-resourced environment (render object mirroring the demo
element, bitmap and 2D context available, image loads). -/
def cropFullEnv : CropEnv where
  fabricObj := some cropFullFabric
  imgElement := true
  ctx := true
  imageLoads := true

/-- C2 counterexample: in a reachable state whose crop session points at
a since-removed element, `applyCrop` hits the missing-element guard and
returns — but crop mode is NOT cleared afterwards as the claim requires:
`cropMode` stays `true` and the bounds and element id keep their
values. -/
theorem applyCrop_failure_leaves_crop_mode_set :
    cropOrphanStore.cropMode = true
      ∧ getElement "img1" cropOrphanStore = none
      ∧ ¬ ((applyCrop cropFullEnv cropOrphanStore).cropMode = false
            ∧ (applyCrop cropFullEnv cropOrphanStore).cropBounds = none
            ∧ (applyCrop cropFullEnv cropOrphanStore).cropElementId = none) := by
  refine ⟨by decide, by decide, ?_⟩
  intro h
  exact absurd h.1 (by decide)

/-- Boolean rendering of the failed-precondition guards of `applyCrop`:
crop bounds or element id absent, crop target missing or not an image,
render object absent, source bitmap unavailable, or no 2D context. -/
def cropPrecondFails (env : CropEnv) (s : Store) : Bool :=
  match s.cropBounds, s.cropElementId with
  | some _, some i =>
    (match getElement i s with
     | none => true
     | some el => el.type != ElemType.image)
      || env.fabricObj.isNone || !env.imgElement || !env.ctx
  | _, _ => true

/-- C2 amended: whenever any `applyCrop` precondition fails, the call
returns with the store completely untouched — no element is modified and
the crop-session state keeps its prior values (`cropMode`, `cropBounds`,
`cropElementId` are NOT cleared; they are cleared only by a successful
apply or by `cancelCrop`).  When the session fields are already null the
crop state is trivially clear and stays so. -/
theorem applyCrop_precondition_failure_is_noop (env : CropEnv) (s : Store)
    (h : cropPrecondFails env s = true) :
    applyCrop env s = s := by
  cases hb : s.cropBounds with
  | none => simp [applyCrop, hb]
  | some r =>
    cases hi : s.cropElementId with
    | none => simp [applyCrop, hb, hi]
    | some i =>
      simp only [cropPrecondFails, hb, hi] at h
      cases hg : getElement i s with
      | none => simp [applyCrop, hb, hi, hg]
      | some el =>
        simp only [hg] at h
        by_cases ht : el.type = ElemType.image
        · cases hf : env.fabricObj with
          | none => simp [applyCrop, hb, hi, hg, hf]
          | some f =>
            cases hie : env.imgElement with
            | false => simp [applyCrop, hb, hi, hg, ht, hf, hie]
            | true =>
              cases hc : env.ctx with
              | false => simp [applyCrop, hb, hi, hg, ht, hf, hie, hc]
              | true =>
                exfalso
                simp [ht, hf, hie, hc] at h
        · simp [applyCrop, hb, hi, hg, ht]

/-- Witness for the amended C2 theorem: crop session active on the
present image element, but no 2D context is obtainable; `applyCrop`
leaves the store untouched. -/
theorem applyCrop_precondition_failure_is_noop_witness :
    cropPrecondFails { cropFullEnv with ctx := false }
        (setCropMode true (some "img1") (initStore (some cropDemoDoc))) = true
      ∧ applyCrop { cropFullEnv with ctx := false }
          (setCropMode true (some "img1") (initStore (some cropDemoDoc)))
        = setCropMode true (some "img1") (initStore (some cropDemoDoc)) :=
  ⟨by decide,
   applyCrop_precondition_failure_is_noop { cropFullEnv with ctx := false }
     (setCropMode true (some "img1") (initStore (some cropDemoDoc))) (by decide)⟩

end CropFailure

section UpdateFrame

/-- Builds a well-formed-store fact from a well-formed loaded project. -/
lemma WF_of_proj {s : Store} {pr : Project} (hp : s.project = some pr) (hwf : WFproj pr) :
    WF s := by
  intro pr' hpr'
  rw [hp] at hpr'
  cases hpr'
  exact hwf

/-- The element list `updateElement` commits: the pointwise conditional
merge of the active list. -/
lemma activeElements_updateElement (s : Store) (pr : Project) (i : String) (u : ElementPatch)
    (hp : s.project = some pr) (hwf : WF s) :
    activeElements (updateElement i u s)
      = (activeElements s).map (fun el => if el.id == i then mergeElement el u else el) := by
  simp only [updateElement, hp]
  exact activeElements_setActiveElements s _ pr hp (hwf pr hp)

/-- C10, updateElement frame property: with a project loaded, the update
maps only elements whose id matches; list length (and order, since the
rewrite is positionwise) is preserved, every element at a position whose
id differs from the target is exactly unchanged, the element with the
target id becomes the shallow merge of itself with the updates, fields
the update does not name keep their previous values, and when no element
has the id the element list is unchanged. -/
theorem updateElement_frame_property (s : Store) (pr : Project) (i : String) (u : ElementPatch)
    (hp : s.project = some pr) (hwf : WF s) :
    (activeElements (updateElement i u s)).length = (activeElements s).length
      ∧ (∀ k el, (activeElements s).get? k = some el → el.id ≠ i →
          (activeElements (updateElement i u s)).get? k = some el)
      ∧ (∀ k el, (activeElements s).get? k = some el → el.id = i →
          (activeElements (updateElement i u s)).get? k = some (mergeElement el u))
      ∧ (i ∉ activeIds s → activeElements (updateElement i u s) = activeElements s)
      ∧ (∀ el : Element,
          (u.name = none → (mergeElement el u).name = el.name)
            ∧ (u.transform = none → (mergeElement el u).transform = el.transform)
            ∧ (u.style = none → (mergeElement el u).style = el.style)
            ∧ (u.zIndex = none → (mergeElement el u).zIndex = el.zIndex)
            ∧ (u.locked = none → (mergeElement el u).locked = el.locked)
            ∧ (u.visible = none → (mergeElement el u).visible = el.visible)
            ∧ (u.selectable = none → (mergeElement el u).selectable = el.selectable)
            ∧ (u.content = none → (mergeElement el u).content = el.content)
            ∧ (u.src = none → (mergeElement el u).src = el.src)
            ∧ (u.originalSrc = none → (mergeElement el u).originalSrc = el.originalSrc)
            ∧ (u.crop = none → (mergeElement el u).crop = el.crop)
            ∧ (u.shapeType = none → (mergeElement el u).shapeType = el.shapeType)
            ∧ (u.id = none → (mergeElement el u).id = el.id)
            ∧ (u.type = none → (mergeElement el u).type = el.type)) := by
  have hR := activeElements_updateElement s pr i u hp hwf
  refine ⟨?_, ?_, ?_, ?_, ?_⟩
  · rw [hR, List.length_map]
  · intro k el hk hne
    rw [hR, List.get?_map, hk]
    simp [hne]
  · intro k el hk heq
    rw [hR, List.get?_map, hk]
    simp [heq]
  · intro hni
    rw [hR]
    have hcong : ∀ el ∈ activeElements s,
        (if el.id == i then mergeElement el u else el) = el := by
      intro el hel
      have hne : ¬ el.id = i := by
        intro h
        exact hni (h ▸ List.mem_map_of_mem (fun e => e.id) hel)
      simp [hne]
    calc (activeElements s).map (fun el => if el.id == i then mergeElement el u else el)
        = (activeElements s).map id := List.map_congr_left hcong
      _ = activeElements s := List.map_id _
  · intro el
    refine ⟨?_, ?_, ?_, ?_, ?_, ?_, ?_, ?_, ?_, ?_, ?_, ?_, ?_, ?_⟩ <;>
      (intro h; simp [mergeElement, h])

/-- Demo patch for the frame-property witness. -/
def frameDemoPatch : ElementPatch :=
  { name := some "Renamed" }

/-- Witness for C10: renaming the single image element changes only its
name; length is preserved and the merged element keeps every other
field. -/
theorem updateElement_frame_property_witness :
    (activeElements (updateElement "img1" frameDemoPatch (initStore (some cropDemoDoc)))).length
        = (activeElements (initStore (some cropDemoDoc))).length
      ∧ (activeElements (updateElement "img1" frameDemoPatch (initStore (some cropDemoDoc)))).get? 0
        = some (mergeElement cropImageElement frameDemoPatch)
      ∧ (mergeElement cropImageElement frameDemoPatch).transform = cropImageElement.transform := by
  have h := updateElement_frame_property (initStore (some cropDemoDoc)) cropDemoDoc "img1"
    frameDemoPatch rfl (WF_of_proj rfl (by decide))
  refine ⟨h.1, ?_, (h.2.2.2.2 cropImageElement).2.1 rfl⟩
  exact h.2.2.1 0 cropImageElement (by decide) (by decide)

end UpdateFrame

section PasteNonDrift

/-- Position of an element. -/
def posOf (e : Element) : ℚ × ℚ :=
  (e.transform.x, e.transform.y)

/-- Reading the active elements back out of a store whose project just
had its active page's element list replaced. -/
lemma activeElements_of_setPages (s : Store) (pr : Project) (els : List Element)
    (h : s.project = some { pr with pages := setPageElems pr.pages pr.activePageId els })
    (hwf : WFproj pr) :
    activeElements s = els := by
  obtain ⟨pg, hpg⟩ := Option.isSome_iff_exists.mp hwf
  simp [activeElements, h, findPage, find?_setPageElems]
  simp only [findPage] at hpg
  simp [hpg]

/-- The elements `paste` appends: clipboard clones with fresh ids, a
(20,20) offset from the stored clipboard transform, and ascending
z-indices above the page maximum. -/
lemma paste_spec (s : Store) (pr : Project) (hp : s.project = some pr) (hwf : WF s)
    (hcb : ¬ s.clipboard = []) :
    activeElements (paste s)
        = activeElements s
          ++ s.clipboard.enum.map (fun ke =>
              { ke.2 with
                id := freshId (s.fresh + ke.1)
                transform := { ke.2.transform with
                  x := ke.2.transform.x + 20, y := ke.2.transform.y + 20 }
                zIndex := maxZOrZero (activeElements s) + ke.1 + 1 })
      ∧ (paste s).clipboard = s.clipboard
      ∧ (paste s).project
        = some { pr with
            pages := setPageElems pr.pages pr.activePageId
              (activeElements s
                ++ s.clipboard.enum.map (fun ke =>
                    { ke.2 with
                      id := freshId (s.fresh + ke.1)
                      transform := { ke.2.transform with
                        x := ke.2.transform.x + 20, y := ke.2.transform.y + 20 }
                      zIndex := maxZOrZero (activeElements s) + ke.1 + 1 })) } := by
  have hne : s.clipboard.isEmpty = false := by
    cases hcl : s.clipboard with
    | nil => exact absurd hcl hcb
    | cons a l => rfl
  have hproj : (paste s).project
      = some { pr with
          pages := setPageElems pr.pages pr.activePageId
            (activeElements s
              ++ s.clipboard.enum.map (fun ke =>
                  { ke.2 with
                    id := freshId (s.fresh + ke.1)
                    transform := { ke.2.transform with
                      x := ke.2.transform.x + 20, y := ke.2.transform.y + 20 }
                    zIndex := maxZOrZero (activeElements s) + ke.1 + 1 })) } := by
    simp only [paste, hne, Bool.false_eq_true, if_false, hp]
    rw [setActiveElements_project _ _ pr rfl]
  refine ⟨activeElements_of_setPages _ pr _ hproj (hwf pr hp), ?_, hproj⟩
  simp only [paste, hne, Bool.false_eq_true, if_false, hp]
  rw [setActiveElements_clipboard]

/-- C5, paste non-drift: with a project loaded and a nonempty clipboard,
`paste` leaves the prior elements in place and appends one clone per
clipboard entry whose position is the stored clipboard element's
position offset by exactly (20,20); the clipboard is untouched, so a
second `paste` appends clones at exactly the same positions — the second
paste is not offset further than the first. -/
theorem paste_non_drift (s : Store) (pr : Project) (hp : s.project = some pr) (hwf : WF s)
    (hcb : ¬ s.clipboard = []) :
    (paste s).clipboard = s.clipboard
      ∧ (activeElements (paste s)).take (activeElements s).length = activeElements s
      ∧ ((activeElements (paste s)).drop (activeElements s).length).length = s.clipboard.length
      ∧ (∀ k : ℕ, (((activeElements (paste s)).drop (activeElements s).length)[k]?).map posOf
          = (s.clipboard[k]?).map (fun el : Element => (el.transform.x + 20, el.transform.y + 20)))
      ∧ (∀ k : ℕ, (((activeElements (paste (paste s))).drop (activeElements (paste s)).length)[k]?).map posOf
          = (s.clipboard[k]?).map (fun el : Element => (el.transform.x + 20, el.transform.y + 20))) := by
  obtain ⟨h1, h2, h3⟩ := paste_spec s pr hp hwf hcb
  have hdrop : (activeElements (paste s)).drop (activeElements s).length
      = s.clipboard.enum.map (fun ke =>
          { ke.2 with
            id := freshId (s.fresh + ke.1)
            transform := { ke.2.transform with
              x := ke.2.transform.x + 20, y := ke.2.transform.y + 20 }
            zIndex := maxZOrZero (activeElements s) + ke.1 + 1 }) := by
    rw [h1, List.drop_left]
  have htake : (activeElements (paste s)).take (activeElements s).length = activeElements s := by
    rw [h1, List.take_left]
  have hwf' : WF (paste s) :=
    WF_of_proj h3 (WFproj_setPageElems pr _ (hwf pr hp))
  have hcb' : ¬ (paste s).clipboard = [] := by
    rw [h2]; exact hcb
  obtain ⟨g1, g2, g3⟩ := paste_spec (paste s) _ h3 hwf' hcb'
  have hdrop2 : (activeElements (paste (paste s))).drop (activeElements (paste s)).length
      = (paste s).clipboard.enum.map (fun ke =>
          { ke.2 with
            id := freshId ((paste s).fresh + ke.1)
            transform := { ke.2.transform with
              x := ke.2.transform.x + 20, y := ke.2.transform.y + 20 }
            zIndex := maxZOrZero (activeElements (paste s)) + ke.1 + 1 }) := by
    rw [g1, List.drop_left]
  refine ⟨h2, htake, ?_, ?_, ?_⟩
  · rw [hdrop]
    simp [List.enum_length]
  · intro k
    rw [hdrop, List.getElem?_map, List.getElem?_enum]
    cases hk : s.clipboard[k]? <;> simp [posOf]
  · intro k
    rw [hdrop2, List.getElem?_map, List.getElem?_enum, h2]
    cases hk : s.clipboard[k]? <;> simp [posOf]

/-- Single-element clipboard demo: copy the image element, then paste
twice. -/
def pasteDemoStore : Store :=
  copy (select ["img1"] false (initStore (some cropDemoDoc)))

/-- Witness for C5: pasting twice from the one-element clipboard puts
both clones at the original position offset by exactly (20,20). -/
theorem paste_non_drift_witness :
    (paste pasteDemoStore).clipboard = pasteDemoStore.clipboard
      ∧ (((activeElements (paste pasteDemoStore)).drop
            (activeElements pasteDemoStore).length)[0]?).map posOf
        = some (cropImageElement.transform.x + 20, cropImageElement.transform.y + 20)
      ∧ (((activeElements (paste (paste pasteDemoStore))).drop
            (activeElements (paste pasteDemoStore)).length)[0]?).map posOf
        = some (cropImageElement.transform.x + 20, cropImageElement.transform.y + 20) := by
  have h := paste_non_drift pasteDemoStore cropDemoDoc rfl (WF_of_proj rfl (by decide))
    (by decide)
  refine ⟨h.1, ?_, ?_⟩
  · rw [h.2.2.2.1 0]
    rfl
  · rw [h.2.2.2.2 0]
    rfl

end PasteNonDrift

section DuplicateNaming

/-- Removal of trailing whitespace, the effect the `\s*` part of the
suffix regex has on the characters preceding "(Copy)". -/
def dropTrailingWS (s : String) : String :=
  String.mk ((s.data.reverse.dropWhile isWS).reverse)

/-- Stripping the regex suffix from any string that ends with exactly
one appended " (Copy)" removes that suffix and whatever whitespace
preceded it. -/
lemma stripCopySuffix_append_copy (X : String) :
    stripCopySuffix (X ++ " (Copy)") = dropTrailingWS X := by
  have hdata : (X ++ " (Copy)").data = X.data ++ [' ', '(', 'C', 'o', 'p', 'y', ')'] := rfl
  unfold stripCopySuffix dropTrailingWS
  rw [hdata, List.reverse_append]
  have hrev : ([' ', '(', 'C', 'o', 'p', 'y', ')'] : List Char).reverse
      = [')', 'y', 'p', 'o', 'C', '(', ' '] := by decide
  rw [hrev]
  have hcond : ((([')', 'y', 'p', 'o', 'C', '(', ' '] ++ X.data.reverse).take 6).map Char.toLower)
      = copyRev := by
    simp [copyRev]
  rw [if_pos hcond]
  have hdrop : (([')', 'y', 'p', 'o', 'C', '(', ' '] ++ X.data.reverse).drop 6)
      = ' ' :: X.data.reverse := by
    simp
  rw [hdrop]
  have hws : isWS ' ' = true := by decide
  simp [List.dropWhile, hws]

/-- Duplicating a duplicate recomputes the same suffix on the
whitespace-normalized stem. -/
lemma duplicateName_duplicateName (s : String) :
    duplicateName (duplicateName s) = dropTrailingWS (stripCopySuffix s) ++ " (Copy)" := by
  unfold duplicateName
  rw [stripCopySuffix_append_copy]

/-- Mapping a function of the entry alone over an enumerated list
forgets the indices. -/
lemma map_snd_enumFrom {α β : Type _} (g : α → β) :
    ∀ (n : ℕ) (l : List α), (l.enumFrom n).map (fun ke => g ke.2) = l.map g
  | _, [] => rfl
  | n, a :: t => by simp [List.enumFrom, map_snd_enumFrom g (n + 1) t]

/-- Rewriting the selection does not change the active elements. -/
lemma activeElements_setSelected (t : Store) (v : List String) :
    activeElements { t with selectedIds := v } = activeElements t :=
  activeElements_congr rfl

/-- The committed element lists of `duplicateElements (some l)`: the old
elements followed by the clones of the targeted elements, each clone
carrying the replaced-suffix "(Copy)" name, a fresh id and the (20,20)
offset. -/
lemma duplicateElements_spec (st : Store) (pr : Project) (l : List String)
    (hp : st.project = some pr) (hwf : WF st) (hl : ¬ l = []) :
    activeElements (duplicateElements (some l) st).2
      = activeElements st
        ++ ((activeElements st).filter (fun el => l.contains el.id)).enum.map (fun ke =>
            { ke.2 with
              id := freshId (st.fresh + ke.1)
              name := duplicateName ke.2.name
              transform := { ke.2.transform with
                x := ke.2.transform.x + 20, y := ke.2.transform.y + 20 } }) := by
  have hne : l.isEmpty = false := by
    cases hcl : l with
    | nil => exact absurd hcl hl
    | cons a t => rfl
  simp only [duplicateElements, Option.getD_some, hne, Bool.false_eq_true, if_false, hp,
    pushHistoryAfter]
  rw [pushState_activeElements, activeElements_setSelected]
  exact activeElements_setActiveElements _ _ pr rfl (hwf pr hp)

/-- C6, duplicate naming idempotence: `duplicateElements` names every
clone by stripping any pre-existing "(Copy)" suffix from the source
element's name before appending a single " (Copy)" — the suffix is
replaced, not stacked; "Foo" becomes "Foo (Copy)", duplicating that
yields "Foo (Copy)" again, and for every name whose suffix-stripped stem
carries no trailing whitespace the duplicate-of-the-duplicate name
equals the duplicate's name. -/
theorem duplicate_naming_idempotent (st : Store) (pr : Project) (l : List String) (s : String)
    (hp : st.project = some pr) (hwf : WF st) (hl : ¬ l = [])
    (hs : dropTrailingWS (stripCopySuffix s) = stripCopySuffix s) :
    ((activeElements (duplicateElements (some l) st).2).drop
          (activeElements st).length).map (fun e => e.name)
        = ((activeElements st).filter (fun el => l.contains el.id)).map
            (fun el : Element => duplicateName el.name)
      ∧ duplicateName "Foo" = "Foo (Copy)"
      ∧ duplicateName "Foo (Copy)" = "Foo (Copy)"
      ∧ duplicateName (duplicateName s) = duplicateName s := by
  refine ⟨?_, by decide, by decide, ?_⟩
  · rw [duplicateElements_spec st pr l hp hwf hl, List.drop_left, List.map_map]
    exact map_snd_enumFrom (fun el : Element => duplicateName el.name) 0 _
  · rw [duplicateName_duplicateName, hs]
    rfl

/-- Concrete element named "Foo". -/
def fooElement : Element where
  id := "foo1"
  type := ElemType.text
  name := "Foo"
  transform := createDefaultTransform
  style := createDefaultStyle
  locked := false
  visible := true
  selectable := true
  zIndex := 1
  content := "Hi"

/-- Document holding only `fooElement`. -/
def fooDoc : Project where
  pages := [{ id := "p", elements := [fooElement] }]
  activePageId := "p"

/-- Witness for C6: duplicating the element named "Foo" appends a clone
named "Foo (Copy)", and the naming function is idempotent at "Bar". -/
theorem duplicate_naming_idempotent_witness :
    ((activeElements (duplicateElements (some ["foo1"]) (initStore (some fooDoc))).2).drop
          (activeElements (initStore (some fooDoc))).length).map (fun e => e.name)
        = ["Foo (Copy)"]
      ∧ duplicateName (duplicateName "Bar") = duplicateName "Bar" := by
  have h := duplicate_naming_idempotent (initStore (some fooDoc)) fooDoc ["foo1"] "Bar"
    rfl (WF_of_proj rfl (by decide)) (by decide) (by decide)
  refine ⟨?_, h.2.2.2⟩
  rw [h.1]
  decide

end DuplicateNaming

section HistoryBound

/-- Push a sequence of document states: each state is committed to the
editor and then captured by `pushState` (the label is immaterial to the
stacks). -/
def pushStates (projs : List Project) (s : Store) : Store :=
  projs.foldl (fun st pr => pushState "state" { st with project := some pr }) s

lemma trimHistory_eq_drop (m : ℕ) (hm : 0 < m) (l : List HistoryEntry) :
    trimHistory m l = l.drop (l.length - m) := by
  unfold trimHistory jsSliceLast
  by_cases h : m < l.length
  · rw [if_pos h, if_neg (Nat.pos_iff_ne_zero.mp hm)]
  · rw [if_neg h]
    have : l.length - m = 0 := by omega
    rw [this, List.drop_zero]

lemma trimHistory_length_le (m : ℕ) (hm : 0 < m) (l : List HistoryEntry) :
    (trimHistory m l).length ≤ m := by
  rw [trimHistory_eq_drop m hm l, List.length_drop]
  omega

/-- Keeping only the last `m` entries commutes with appending more on
the right: trimming early never loses entries that would survive the
final trim. -/
lemma drop_sub_append {α : Type _} (m : ℕ) (l r : List α) :
    (l.drop (l.length - m) ++ r).drop ((l.drop (l.length - m) ++ r).length - m)
      = (l ++ r).drop ((l ++ r).length - m) := by
  rw [List.drop_append_eq_append_drop, List.drop_append_eq_append_drop, List.drop_drop]
  have h1 : (l.drop (l.length - m)).length = l.length - (l.length - m) := by simp
  congr 1
  · congr 1
    simp only [List.length_append, List.length_drop]
    omega
  · congr 1
    simp only [List.length_append, List.length_drop]
    omega

/-- Behaviour of a whole push sequence: the retained `past` snapshots
are the last `maxHistorySize` of (old snapshots ++ pushed states), the
future stack is empty as soon as anything was pushed, and the
configuration and guard flags are untouched. -/
lemma pushStates_spec :
    ∀ (projs : List Project) (s : Store),
      s.isUndoing = false → s.isRedoing = false → 0 < s.maxHistorySize →
      s.past.length ≤ s.maxHistorySize →
      (pushStates projs s).past.map (fun e => e.projectSnapshot)
          = ((s.past.map (fun e => e.projectSnapshot)) ++ projs).drop
              ((s.past.length + projs.length) - s.maxHistorySize)
        ∧ (pushStates projs s).future = (if projs.isEmpty then s.future else [])
        ∧ (pushStates projs s).maxHistorySize = s.maxHistorySize
        ∧ (pushStates projs s).past.length ≤ s.maxHistorySize
  | [], s => by
    intro hu hr hm hlen
    have hz : s.past.length + 0 - s.maxHistorySize = 0 := by omega
    simp [pushStates, hz, hlen]
  | p :: ps, s => by
    intro hu hr hm hlen
    have hstep : pushStates (p :: ps) s
        = pushStates ps (pushState "state" { s with project := some p }) := rfl
    set s' := pushState "state" { s with project := some p } with hs'
    have hflags : (s.isUndoing || s.isRedoing) = false := by rw [hu, hr]; rfl
    have hpast' : s'.past
        = (s.past ++ [HistoryEntry.mk (freshId s.fresh) "state" p]).drop
            ((s.past.length + 1) - s.maxHistorySize) := by
      rw [hs']
      simp only [pushState, hflags, Bool.false_eq_true, if_false]
      rw [trimHistory_eq_drop _ hm]
      simp
    have hfut' : s'.future = [] := by
      rw [hs']
      simp [pushState, hflags]
    have hflags' : s'.isUndoing = false ∧ s'.isRedoing = false
        ∧ s'.maxHistorySize = s.maxHistorySize := by
      rw [hs']
      simp [pushState, hflags]
      exact ⟨hu, hr⟩
    have hlen' : s'.past.length ≤ s.maxHistorySize := by
      rw [hpast', List.length_drop]
      simp only [List.length_append, List.length_singleton]
      omega
    have hm' : 0 < s'.maxHistorySize := by
      rw [hflags'.2.2]; exact hm
    have hlen'' : s'.past.length ≤ s'.maxHistorySize := by
      rw [hflags'.2.2]; exact hlen'
    have ih := pushStates_spec ps s' hflags'.1 hflags'.2.1 hm' hlen''
    rw [hflags'.2.2] at ih
    obtain ⟨ih1, ih2, ih3, ih4⟩ := ih
    rw [hstep]
    refine ⟨?_, ?_, ih3, ih4⟩
    · rw [ih1]
      have hmapdrop : s'.past.map (fun e => e.projectSnapshot)
          = ((s.past.map (fun e => e.projectSnapshot)) ++ [p]).drop
              (((s.past.map (fun e => e.projectSnapshot)) ++ [p]).length
                - s.maxHistorySize) := by
        rw [hpast', List.map_drop]
        simp
      rw [hmapdrop]
      have := drop_sub_append s.maxHistorySize
        ((s.past.map (fun e => e.projectSnapshot)) ++ [p]) ps
      calc ((((s.past.map (fun e => e.projectSnapshot)) ++ [p]).drop
              (((s.past.map (fun e => e.projectSnapshot)) ++ [p]).length - s.maxHistorySize))
              ++ ps).drop ((s'.past.length + ps.length) - s.maxHistorySize)
          = ((((s.past.map (fun e => e.projectSnapshot)) ++ [p]).drop
              (((s.past.map (fun e => e.projectSnapshot)) ++ [p]).length - s.maxHistorySize))
              ++ ps).drop
              (((((s.past.map (fun e => e.projectSnapshot)) ++ [p]).drop
                (((s.past.map (fun e => e.projectSnapshot)) ++ [p]).length - s.maxHistorySize))
                ++ ps).length - s.maxHistorySize) := by
            congr 1
            rw [hpast']
            simp only [List.length_append, List.length_drop, List.length_map,
              List.length_singleton]
        _ = (((s.past.map (fun e => e.projectSnapshot)) ++ [p]) ++ ps).drop
              ((((s.past.map (fun e => e.projectSnapshot)) ++ [p]) ++ ps).length
                - s.maxHistorySize) := this
        _ = ((s.past.map (fun e => e.projectSnapshot)) ++ p :: ps).drop
              ((s.past.length + (p :: ps).length) - s.maxHistorySize) := by
            rw [List.append_assoc, List.singleton_append]
            congr 1
            simp only [List.length_append, List.length_map, List.length_cons,
              List.length_singleton]
    · rw [ih2, hfut']
      simp

/-- C9, history bound enforcement: from any store whose `past` respects
the bound, pushing `maxHistorySize + k` document states through
`pushState` leaves exactly `maxHistorySize` entries in `past`, whose
snapshots are the most recently pushed states (the oldest
`s.past.length + k` of the combined old-plus-new sequence are
discarded), and every push clears the `future` stack — in particular it
is empty at the end. -/
theorem pushState_bound_enforced (s : Store) (projs : List Project) (k : ℕ)
    (hu : s.isUndoing = false) (hr : s.isRedoing = false)
    (hm : 0 < s.maxHistorySize) (hlen : s.past.length ≤ s.maxHistorySize)
    (hn : projs.length = s.maxHistorySize + k) :
    (pushStates projs s).past.length = s.maxHistorySize
      ∧ (pushStates projs s).past.map (fun e => e.projectSnapshot)
        = (s.past.map (fun e => e.projectSnapshot) ++ projs).drop (s.past.length + k)
      ∧ (pushStates projs s).future = []
      ∧ (∀ (label : String) (t : Store), t.project ≠ none → t.isUndoing = false →
          t.isRedoing = false → (pushState label t).future = []) := by
  obtain ⟨hmap, hfut, _, _⟩ := pushStates_spec projs s hu hr hm hlen
  have hidx : s.past.length + projs.length - s.maxHistorySize = s.past.length + k := by
    omega
  refine ⟨?_, by rw [hmap, hidx], ?_, ?_⟩
  · have := congrArg List.length hmap
    simp only [List.length_map, List.length_drop, List.length_append] at this
    omega
  · rw [hfut]
    have : projs.isEmpty = false := by
      cases hc : projs with
      | nil => rw [hc] at hn; simp at hn; omega
      | cons a t => rfl
    rw [this]
    rfl
  · intro label t hproj htu htr
    obtain ⟨pr, hpr⟩ := Option.ne_none_iff_exists'.mp hproj
    have hflags : (t.isUndoing || t.isRedoing) = false := by rw [htu, htr]; rfl
    simp [pushState, hpr, hflags]

/-- Store used for the bound witness: initial store over document A with
the bound lowered to 2. -/
def boundDemoStore : Store :=
  { initStore (some histDocA) with maxHistorySize := 2 }

/-- Witness for C9: pushing 3 = 2 + 1 states with bound 2 retains
exactly the 2 most recent snapshots and an empty future stack. -/
theorem pushState_bound_enforced_witness :
    (pushStates [histDocA, histDocB, histDocA] boundDemoStore).past.length = 2
      ∧ (pushStates [histDocA, histDocB, histDocA] boundDemoStore).past.map
          (fun e => e.projectSnapshot) = [histDocB, histDocA]
      ∧ (pushStates [histDocA, histDocB, histDocA] boundDemoStore).future = []
      ∧ (pushState "x" (initStore (some histDocA))).future = [] := by
  have h := pushState_bound_enforced boundDemoStore [histDocA, histDocB, histDocA] 1
    rfl rfl (by decide) (by decide) (by decide)
  refine ⟨h.1, ?_, h.2.2.1, h.2.2.2 "x" (initStore (some histDocA)) (by decide) rfl rfl⟩
  rw [h.2.1]
  decide

end HistoryBound

section SelectionSubset

/-- Well-formedness only depends on the project slot. -/
lemma WF_congr {s₁ s₂ : Store} (h : s₁.project = s₂.project) (hwf : WF s₂) : WF s₁ := by
  intro pr hpr
  exact hwf pr (h ▸ hpr)

/-- Adding an element keeps the store well-formed and the selection a subset
of the active page's ids. -/
lemma addElement_preserves (el : Element) (s : Store) (hwf : WF s)
    (hinv : s.selectedIds ⊆ activeIds s) :
    WF (addElement el s)
      ∧ (addElement el s).selectedIds ⊆ activeIds (addElement el s) := by
  cases hp : s.project with
  | none =>
    have : addElement el s = s := by simp [addElement, hp]
    rw [this]
    exact ⟨hwf, hinv⟩
  | some pr =>
    have hform : addElement el s
        = pushState ("Add " ++ typeName el.type)
            { setActiveElements s (activeElements s ++ [el]) with selectedIds := [el.id] } := by
      simp [addElement, hp, pushHistoryAfter]
    rw [hform]
    constructor
    · refine WF_pushState _ _ (WF_congr rfl (WF_setActiveElements s _ hwf))
    · rw [pushState_selectedIds]
      intro x hx
      simp only [List.mem_singleton] at hx
      subst hx
      unfold activeIds
      rw [pushState_activeElements, activeElements_setSelected,
        activeElements_setActiveElements s _ pr hp (hwf pr hp)]
      simp

/-- One add/remove operation preserves well-formedness and the
selection-subset invariant. -/
lemma applyAddRemove_preserves (op : AddRemoveOp) (s : Store) (hwf : WF s)
    (hinv : s.selectedIds ⊆ activeIds s) :
    WF (applyAddRemove op s)
      ∧ (applyAddRemove op s).selectedIds ⊆ activeIds (applyAddRemove op s) := by
  cases op with
  | addEl el => exact addElement_preserves el s hwf hinv
  | addText o =>
    exact addElement_preserves _ _ (WF_congr rfl hwf) hinv
  | addImage src o =>
    exact addElement_preserves _ _ (WF_congr rfl hwf) hinv
  | addShape st o =>
    exact addElement_preserves _ _ (WF_congr rfl hwf) hinv
  | remove ids =>
    simp only [applyAddRemove]
    cases hp : s.project with
    | none =>
      have : removeElement ids s = s := by simp [removeElement, hp]
      rw [this]
      exact ⟨hwf, hinv⟩
    | some pr =>
      have hform : removeElement ids s
          = pushState ("Delete " ++ toString ids.length ++ " element(s)")
              { setActiveElements s
                  ((activeElements s).filter (fun el => !(ids.contains el.id))) with
                selectedIds :=
                  (setActiveElements s
                      ((activeElements s).filter (fun el => !(ids.contains el.id)))).selectedIds.filter
                    (fun i => !(ids.contains i)) } := by
        simp [removeElement, hp, pushHistoryAfter]
      rw [hform]
      constructor
      · exact WF_pushState _ _ (WF_congr rfl (WF_setActiveElements s _ hwf))
      · rw [pushState_selectedIds]
        intro x hx
        simp only [setActiveElements_selectedIds, List.mem_filter] at hx
        obtain ⟨hxs, hxn⟩ := hx
        have hxa := hinv hxs
        unfold activeIds at hxa ⊢
        rw [pushState_activeElements, activeElements_setSelected,
          activeElements_setActiveElements s _ pr hp (hwf pr hp)]
        simp only [List.mem_map] at hxa ⊢
        obtain ⟨e, he, heid⟩ := hxa
        refine ⟨e, ?_, heid⟩
        rw [List.mem_filter]
        refine ⟨he, ?_⟩
        rw [heid]
        exact hxn

/-- A whole sequence of add/remove operations preserves both facts. -/
lemma runAddRemove_preserves :
    ∀ (ops : List AddRemoveOp) (s : Store), WF s → s.selectedIds ⊆ activeIds s →
      WF (runAddRemove ops s)
        ∧ (runAddRemove ops s).selectedIds ⊆ activeIds (runAddRemove ops s)
  | [], s => fun hwf hinv => ⟨hwf, hinv⟩
  | op :: ops, s => fun hwf hinv => by
    have h := applyAddRemove_preserves op s hwf hinv
    exact runAddRemove_preserves ops (applyAddRemove op s) h.1 h.2

/-- C4, selection subset invariant: for every sequence of add/remove
operations run from the initial store state (over any well-formed
project slot), the selection is a subset of the active page's element
ids — removing a selected element also prunes it from the selection. -/
theorem selection_subset_invariant (proj : Option Project) (ops : List AddRemoveOp)
    (hwf : WF (initStore proj)) :
    (runAddRemove ops (initStore proj)).selectedIds
      ⊆ activeIds (runAddRemove ops (initStore proj)) :=
  (runAddRemove_preserves ops (initStore proj) hwf (List.nil_subset _)).2

/-- Add then remove the added element (by its minted id), with a stray
selection of the other element in between. -/
def subsetDemoOps : List AddRemoveOp :=
  [AddRemoveOp.addShape "rectangle" {},
   AddRemoveOp.addText {},
   AddRemoveOp.remove [freshId 0]]

/-- Witness for C4: running a concrete add/add/remove sequence from the
initial store over document A keeps the selection inside the page. -/
theorem selection_subset_invariant_witness :
    (runAddRemove subsetDemoOps (initStore (some histDocA))).selectedIds
      ⊆ activeIds (runAddRemove subsetDemoOps (initStore (some histDocA))) :=
  selection_subset_invariant (some histDocA) subsetDemoOps (WF_of_proj rfl (by decide))

end SelectionSubset

section ZOrder

lemma foldl_max_le_init (b : ℚ) (l : List Element) :
    b ≤ l.foldl (fun a x => max a x.zIndex) b := by
  induction l generalizing b with
  | nil => exact le_refl b
  | cons x t ih => exact le_trans (le_max_left b x.zIndex) (ih (max b x.zIndex))

lemma mem_le_foldl_max (l : List Element) (b : ℚ) :
    ∀ x ∈ l, x.zIndex ≤ l.foldl (fun a y => max a y.zIndex) b := by
  induction l generalizing b with
  | nil => intro x hx; cases hx
  | cons a t ih =>
    intro x hx
    rcases List.mem_cons.mp hx with h | h
    · rw [h]
      exact le_trans (le_max_right b a.zIndex) (foldl_max_le_init (max b a.zIndex) t)
    · exact ih (max b a.zIndex) x h

/-- Every element's z-index is bounded by the page maximum. -/
lemma le_maxZRaw (l : List Element) (x : Element) (hx : x ∈ l) :
    x.zIndex ≤ maxZRaw l := by
  cases l with
  | nil => cases hx
  | cons a t =>
    rcases List.mem_cons.mp hx with h | h
    · rw [h]
      exact foldl_max_le_init a.zIndex t
    · exact mem_le_foldl_max t a.zIndex x h

lemma maxZRaw_append_singleton (l : List Element) (e : Element) :
    maxZRaw (l ++ [e]) = if l.isEmpty then e.zIndex else max (maxZRaw l) e.zIndex := by
  cases l with
  | nil => simp [maxZRaw]
  | cons a t =>
    simp only [List.cons_append, List.isEmpty_cons, Bool.false_eq_true, if_false]
    show (t ++ [e]).foldl (fun acc x => max acc x.zIndex) a.zIndex
      = max (maxZRaw (a :: t)) e.zIndex
    rw [List.foldl_append]
    rfl

/-- Appending an element one above the page maximum advances the
maximum by exactly one. -/
lemma maxZOrZero_append (E : List Element) (e : Element)
    (he : e.zIndex = maxZOrZero E + 1) :
    maxZOrZero (E ++ [e]) = maxZOrZero E + 1 := by
  cases E with
  | nil => simp [maxZOrZero, maxZRaw, he]
  | cons a t =>
    have h1 : ((a :: t) ++ [e] : List Element).isEmpty = false := rfl
    have h2 : (a :: t : List Element).isEmpty = false := rfl
    unfold maxZOrZero
    rw [h1, h2]
    simp only [Bool.false_eq_true, if_false]
    rw [maxZRaw_append_singleton]
    rw [h2]
    simp only [Bool.false_eq_true, if_false]
    unfold maxZOrZero at he
    rw [h2] at he
    simp only [Bool.false_eq_true, if_false] at he
    rw [he]
    exact max_eq_right (by linarith)

/-- Looking up an id after an id-preserving conditional merge finds the
merged element. -/
lemma find?_id_map_update (l : List Element) (i : String) (u : ElementPatch)
    (hu : u.id = none) :
    (l.map (fun el => if el.id == i then mergeElement el u else el)).find?
        (fun el => el.id == i)
      = (l.find? (fun el => el.id == i)).map (fun el => mergeElement el u) := by
  induction l with
  | nil => rfl
  | cons a t ih =>
    by_cases h : a.id = i
    · have hb : (a.id == i) = true := by simp [h]
      have hmid : (mergeElement a u).id = a.id := by simp [mergeElement, hu]
      simp [List.find?, hb, hmid]
    · have hb : (a.id == i) = false := by simp [h]
      simp only [List.map_cons, hb, Bool.false_eq_true, if_false]
      rw [List.find?_cons_of_neg _ (by simp [h]), List.find?_cons_of_neg _ (by simp [h])]
      exact ih

/-- What `addElement` commits when a project is loaded: the element is
appended to the active page. -/
lemma addElement_spec (el : Element) (s : Store) (pr : Project)
    (hp : s.project = some pr) (hwf : WF s) :
    activeElements (addElement el s) = activeElements s ++ [el]
      ∧ (addElement el s).project
        = some { pr with
            pages := setPageElems pr.pages pr.activePageId (activeElements s ++ [el]) } := by
  have hform : addElement el s
      = pushState ("Add " ++ typeName el.type)
          { setActiveElements s (activeElements s ++ [el]) with selectedIds := [el.id] } := by
    simp [addElement, hp, pushHistoryAfter]
  constructor
  · rw [hform, pushState_activeElements, activeElements_setSelected]
    exact activeElements_setActiveElements s _ pr hp (hwf pr hp)
  · rw [hform, pushState_project]
    exact setActiveElements_project s _ pr hp

/-- Adding an element keeps the store well-formed. -/
lemma addElement_WF (el : Element) (s : Store) (hwf : WF s) : WF (addElement el s) := by
  cases hp : s.project with
  | none =>
    have : addElement el s = s := by simp [addElement, hp]
    rw [this]
    exact hwf
  | some pr =>
    have hform : addElement el s
        = pushState ("Add " ++ typeName el.type)
            { setActiveElements s (activeElements s ++ [el]) with selectedIds := [el.id] } := by
      simp [addElement, hp, pushHistoryAfter]
    rw [hform]
    exact WF_pushState _ _ (WF_congr rfl (WF_setActiveElements s _ hwf))

/-- One default-z add request appends exactly one element whose z-index
is the previous page maximum plus one. -/
lemma applyAddReq_spec (r : AddReq) (s : Store) (pr : Project)
    (hp : s.project = some pr) (hwf : WF s) (hz : (AddReq.options r).zIndex = none) :
    ∃ el : Element,
      activeElements (applyAddReq r s) = activeElements s ++ [el]
        ∧ el.zIndex = maxZOrZero (activeElements s) + 1
        ∧ (applyAddReq r s).project
          = some { pr with
              pages := setPageElems pr.pages pr.activePageId (activeElements s ++ [el]) }
        ∧ WF (applyAddReq r s) := by
  cases r with
  | text o =>
    simp only [AddReq.options] at hz
    refine ⟨{ id := o.id.getD (freshId s.fresh)
              type := ElemType.text
              name := o.name.getD "Text"
              content := o.content.getD "Click to edit text"
              transform := o.transform.getD createDefaultTransform
              style := o.style.getD { createDefaultStyle with fill := some "#1a1a1a" }
              locked := o.locked.getD false
              visible := o.visible.getD true
              selectable := o.selectable.getD true
              zIndex := o.zIndex.getD (maxZOrZero (activeElements s) + 1) }, ?_, ?_, ?_, ?_⟩
    · exact (addElement_spec _ ({ s with fresh := s.fresh + 1 }) pr hp (WF_congr rfl hwf)).1
    · show o.zIndex.getD (maxZOrZero (activeElements s) + 1) = maxZOrZero (activeElements s) + 1
      rw [hz]
      rfl
    · exact (addElement_spec _ ({ s with fresh := s.fresh + 1 }) pr hp (WF_congr rfl hwf)).2
    · exact addElement_WF _ _ (WF_congr rfl hwf)
  | image src o =>
    simp only [AddReq.options] at hz
    refine ⟨{ id := o.id.getD (freshId s.fresh)
              type := ElemType.image
              name := o.name.getD "Image"
              src := o.src.getD src
              originalSrc := o.originalSrc.getD src
              transform := o.transform.getD
                { createDefaultTransform with width := 200, height := 200 }
              style := o.style.getD { createDefaultStyle with fill := none }
              crop := o.crop.getD none
              locked := o.locked.getD false
              visible := o.visible.getD true
              selectable := o.selectable.getD true
              zIndex := o.zIndex.getD (maxZOrZero (activeElements s) + 1) }, ?_, ?_, ?_, ?_⟩
    · exact (addElement_spec _ ({ s with fresh := s.fresh + 1 }) pr hp (WF_congr rfl hwf)).1
    · show o.zIndex.getD (maxZOrZero (activeElements s) + 1) = maxZOrZero (activeElements s) + 1
      rw [hz]
      rfl
    · exact (addElement_spec _ ({ s with fresh := s.fresh + 1 }) pr hp (WF_congr rfl hwf)).2
    · exact addElement_WF _ _ (WF_congr rfl hwf)
  | shape st o =>
    simp only [AddReq.options] at hz
    refine ⟨{ id := o.id.getD (freshId s.fresh)
              type := ElemType.shape
              name := o.name.getD ("Shape (" ++ st ++ ")")
              shapeType := o.shapeType.getD st
              transform := o.transform.getD createDefaultTransform
              style := o.style.getD { createDefaultStyle with fill := some "#4A90D9" }
              locked := o.locked.getD false
              visible := o.visible.getD true
              selectable := o.selectable.getD true
              zIndex := o.zIndex.getD (maxZOrZero (activeElements s) + 1) }, ?_, ?_, ?_, ?_⟩
    · exact (addElement_spec _ ({ s with fresh := s.fresh + 1 }) pr hp (WF_congr rfl hwf)).1
    · show o.zIndex.getD (maxZOrZero (activeElements s) + 1) = maxZOrZero (activeElements s) + 1
      rw [hz]
      rfl
    · exact (addElement_spec _ ({ s with fresh := s.fresh + 1 }) pr hp (WF_congr rfl hwf)).2
    · exact addElement_WF _ _ (WF_congr rfl hwf)

/-- Running a sequence of default-z add requests appends elements whose
z-indices are previous-max-plus-one at every step. -/
lemma runAddReqs_spec :
    ∀ (reqs : List AddReq) (s : Store) (pr : Project),
      s.project = some pr → WF s → (∀ r ∈ reqs, (AddReq.options r).zIndex = none) →
      ∃ news : List Element,
        activeElements (runAddReqs reqs s) = activeElements s ++ news
          ∧ news.map (fun e => e.zIndex)
            = (List.range reqs.length).map
                (fun j : ℕ => maxZOrZero (activeElements s) + ((j : ℚ) + 1))
          ∧ ∃ pr', (runAddReqs reqs s).project = some pr' ∧ WF (runAddReqs reqs s)
  | [], s, pr => by
    intro hp hwf _
    exact ⟨[], by simp [runAddReqs], by simp [runAddReqs], pr, hp, hwf⟩
  | r :: rs, s, pr => by
    intro hp hwf hall
    obtain ⟨el, h1, h2, h3, h4⟩ := applyAddReq_spec r s pr hp hwf
      (hall r (List.mem_cons_self r rs))
    have hstep : runAddReqs (r :: rs) s = runAddReqs rs (applyAddReq r s) := rfl
    obtain ⟨news', g1, g2, gex⟩ := runAddReqs_spec rs (applyAddReq r s) _ h3 h4
      (fun q hq => hall q (List.mem_cons_of_mem r hq))
    have hmax1 : maxZOrZero (activeElements (applyAddReq r s))
        = maxZOrZero (activeElements s) + 1 := by
      rw [h1]
      exact maxZOrZero_append _ el h2
    refine ⟨el :: news', ?_, ?_, ?_⟩
    · rw [hstep, g1, h1, List.append_assoc, List.singleton_append]
    · simp only [List.map_cons, g2, hmax1, List.length_cons]
      rw [List.range_succ_eq_map, List.map_cons, List.map_map]
      congr 1
      · rw [h2]
        norm_num
      · refine List.map_congr_left ?_
        intro j _
        simp only [Function.comp_apply]
        push_cast
        ring
    · rw [hstep]
      exact gex

/-- Strictly ascending chain of previous-max-plus-one values. -/
lemma chain_lt_range_map (m : ℚ) (n : ℕ) :
    List.Chain' (· < ·) ((List.range n).map (fun j : ℕ => m + ((j : ℚ) + 1))) := by
  rw [List.chain'_map]
  cases n with
  | zero => simp
  | succ n' =>
    rw [List.chain'_range_succ]
    intro j _
    push_cast
    linarith

/-- C7, z-order default placement: (a) adding N elements through the
add* constructors without a caller-supplied zIndex assigns each new
element the previous page maximum plus one (1 on an empty page), so the
assigned values form the strictly increasing run max+1, max+2, …; and
(b) `bringToFront` on an existing id (ids unique on the page, page
nonempty since the element is on it) leaves that element with z-index
equal to the old page maximum plus one, strictly above every other
element — the unique page maximum. -/
theorem zorder_default_placement :
    (∀ (reqs : List AddReq) (s : Store) (pr : Project),
        s.project = some pr → WF s →
        (∀ r ∈ reqs, (AddReq.options r).zIndex = none) →
        ∃ news : List Element,
          activeElements (runAddReqs reqs s) = activeElements s ++ news
            ∧ news.map (fun e => e.zIndex)
              = (List.range reqs.length).map
                  (fun j : ℕ => maxZOrZero (activeElements s) + ((j : ℚ) + 1))
            ∧ List.Chain' (· < ·) (news.map (fun e => e.zIndex)))
      ∧ (∀ (s : Store) (pr : Project) (i : String) (e : Element),
          s.project = some pr → WF s →
          (activeElements s).find? (fun el => el.id == i) = some e →
          ((activeElements s).map (fun el => el.id)).Nodup →
          ∃ e', (activeElements (bringToFront i s)).find? (fun el => el.id == i) = some e'
            ∧ e'.zIndex = maxZRaw (activeElements s) + 1
            ∧ ∀ el' ∈ activeElements (bringToFront i s), el'.id ≠ i →
                el'.zIndex < e'.zIndex) := by
  constructor
  · intro reqs s pr hp hwf hall
    obtain ⟨news, h1, h2, _⟩ := runAddReqs_spec reqs s pr hp hwf hall
    exact ⟨news, h1, h2, h2 ▸ chain_lt_range_map _ _⟩
  · intro s pr i e hp hwf hfind _
    have hupd : activeElements (bringToFront i s)
        = (activeElements s).map
            (fun el => if el.id == i
              then mergeElement el { zIndex := some (maxZRaw (activeElements s) + 1) }
              else el) :=
      activeElements_updateElement s pr i _ hp hwf
    refine ⟨mergeElement e { zIndex := some (maxZRaw (activeElements s) + 1) }, ?_, rfl, ?_⟩
    · rw [hupd, find?_id_map_update _ _ _ rfl, hfind]
      rfl
    · intro el' hel' hne
      rw [hupd] at hel'
      obtain ⟨el0, hel0, helm⟩ := List.mem_map.mp hel'
      by_cases h0 : el0.id = i
      · exfalso
        apply hne
        rw [← helm]
        simp [h0, mergeElement]
      · have : el' = el0 := by
          rw [← helm]
          simp [h0]
        rw [this]
        have hle : el0.zIndex ≤ maxZRaw (activeElements s) := le_maxZRaw _ el0 hel0
        have : (mergeElement e { zIndex := some (maxZRaw (activeElements s) + 1) }).zIndex
            = maxZRaw (activeElements s) + 1 := rfl
        rw [this]
        linarith

/-- Witness for C7: two default adds on document A assign z-indices
1 and 2, and `bringToFront` on the demo image leaves it strictly above
every other element. -/
theorem zorder_default_placement_witness :
    (∃ news : List Element,
        activeElements (runAddReqs [AddReq.shape "rectangle" {}, AddReq.text {}]
            (initStore (some histDocA)))
          = activeElements (initStore (some histDocA)) ++ news
          ∧ news.map (fun e => e.zIndex)
            = (List.range 2).map
                (fun j : ℕ =>
                  maxZOrZero (activeElements (initStore (some histDocA))) + ((j : ℚ) + 1))
          ∧ List.Chain' (· < ·) (news.map (fun e => e.zIndex)))
      ∧ (∃ e', (activeElements (bringToFront "img1" (initStore (some cropDemoDoc)))).find?
            (fun el => el.id == "img1") = some e'
          ∧ e'.zIndex = maxZRaw (activeElements (initStore (some cropDemoDoc))) + 1
          ∧ ∀ el' ∈ activeElements (bringToFront "img1" (initStore (some cropDemoDoc))),
              el'.id ≠ "img1" → el'.zIndex < e'.zIndex) := by
  constructor
  · exact zorder_default_placement.1 [AddReq.shape "rectangle" {}, AddReq.text {}]
      (initStore (some histDocA)) histDocA rfl (WF_of_proj rfl (by decide)) (by decide)
  · exact zorder_default_placement.2 (initStore (some cropDemoDoc)) cropDemoDoc "img1"
      cropImageElement rfl (WF_of_proj rfl (by decide)) (by decide) (by decide)

end ZOrder

section NoopPolicy

lemma map_update_id_of_absent (l : List Element) (i : String) (f : Element → Element)
    (h : ∀ el ∈ l, el.id ≠ i) :
    l.map (fun el => if el.id == i then f el else el) = l := by
  calc l.map (fun el => if el.id == i then f el else el)
      = l.map id := List.map_congr_left (by
        intro el hel
        simp [h el hel])
    _ = l := List.map_id l

lemma filter_not_contains_of_absent (l : List Element) (ids : List String) (s : Store)
    (hels : ∀ el ∈ l, el.id ∈ activeIds s) (habs : idsAbsent ids s) :
    l.filter (fun el => !(ids.contains el.id)) = l := by
  rw [List.filter_eq_self]
  intro el hel
  cases hc : ids.contains el.id with
  | false => rfl
  | true =>
    exfalso
    exact habs el.id (List.mem_of_elem_eq_true hc) (hels el hel)

lemma filter_contains_empty_of_absent (l : List Element) (ids : List String) (s : Store)
    (hels : ∀ el ∈ l, el.id ∈ activeIds s) (habs : idsAbsent ids s) :
    l.filter (fun el => ids.contains el.id) = [] := by
  rw [List.filter_eq_nil_iff]
  intro el hel
  intro hc
  exact habs el.id (List.mem_of_elem_eq_true hc) (hels el hel)

lemma find?_eq_none_of_absent (l : List Element) (i : String) (s : Store)
    (hels : ∀ el ∈ l, el.id ∈ activeIds s) (habs : i ∉ activeIds s) :
    l.find? (fun el => el.id == i) = none := by
  rw [List.find?_eq_none]
  intro el hel
  simp only [beq_iff_eq]
  intro heq
  exact habs (heq ▸ hels el hel)

/-- With no project loaded, no element-store operation touches the
project slot, the history stacks or the clipboard. -/
lemma applyStoreOp_no_project (op : StoreOp) (s : Store) (hp : s.project = none) :
    (applyStoreOp op s).project = none
      ∧ (applyStoreOp op s).past = s.past
      ∧ (applyStoreOp op s).future = s.future
      ∧ (applyStoreOp op s).clipboard = s.clipboard := by
  cases op with
  | addEl el => simp [applyStoreOp, addElement, hp]
  | addText o =>
    simp [applyStoreOp, addTextElement, addElement, hp]
  | addImage src o =>
    simp [applyStoreOp, addImageElement, addElement, hp]
  | addShape st o =>
    simp [applyStoreOp, addShapeElement, addElement, hp]
  | update i u => simp [applyStoreOp, updateElement, hp]
  | remove ids => simp [applyStoreOp, removeElement, hp]
  | dup ids =>
    simp only [applyStoreOp, duplicateElements]
    by_cases he : (ids.getD s.selectedIds).isEmpty
    · simp [he, hp]
    · simp only [he, Bool.false_eq_true, if_false]
      simp [pushHistoryAfter, pushState, setActiveElements, hp]
  | pasteOp =>
    simp only [applyStoreOp, paste]
    by_cases he : s.clipboard.isEmpty
    · simp [he, hp]
    · simp only [he, Bool.false_eq_true, if_false]
      simp [setActiveElements, hp]
  | updTrans i t =>
    simp [applyStoreOp, updateTransform, updateElement, activeElements, hp]
  | updStyle i st =>
    simp [applyStoreOp, updateStyle, updateElement, activeElements, hp]
  | bringFront i => simp [applyStoreOp, bringToFront, updateElement, hp]
  | sendBack i => simp [applyStoreOp, sendToBack, updateElement, hp]
  | bringFwd i =>
    simp [applyStoreOp, bringForward, updateElement, activeElements, hp]
  | sendBwd i =>
    simp [applyStoreOp, sendBackward, updateElement, activeElements, hp]
  | lock i => simp [applyStoreOp, lockElement, updateElement, hp]
  | unlock i => simp [applyStoreOp, unlockElement, updateElement, hp]
  | toggleVis i =>
    simp [applyStoreOp, toggleVisibility, updateElement, activeElements, hp]

/-- Duplication with no explicit ids targets the selection. -/
lemma duplicateElements_none_eq (s : Store) :
    duplicateElements none s = duplicateElements (some s.selectedIds) s := rfl

/-- Duplication never touches the clipboard. -/
lemma duplicateElements_clipboard (ids : Option (List String)) (s : Store) :
    ((duplicateElements ids s).2).clipboard = s.clipboard := by
  simp only [duplicateElements, pushHistoryAfter]
  by_cases he : (ids.getD s.selectedIds).isEmpty
  · simp [he]
  · simp only [he, Bool.false_eq_true, if_false]
    rw [pushState_clipboard]
    cases hp : s.project with
    | none => simp [hp]
    | some pr => simp [hp, setActiveElements_clipboard]

/-- Pasting never touches the clipboard. -/
lemma paste_clipboard (s : Store) : (paste s).clipboard = s.clipboard := by
  simp only [paste]
  by_cases he : s.clipboard.isEmpty
  · simp [he]
  · simp only [he, Bool.false_eq_true, if_false]
    cases hp : s.project with
    | none => simp [hp]
    | some pr => simp [hp, setActiveElements_clipboard]

/-- C8 amended: an element-store operation invoked with no active
project, or whose element ids are all absent from the active page,
returns normally (the model is total — nothing raises) and leaves the
active page's element list and the clipboard unchanged; with no project
it also leaves the project slot and both history stacks unchanged.
(Unlike the original claim, selection and — with a project present —
history may still change: `duplicateElements`/`paste` rewrite
`selectedIds` and `removeElement`/`duplicateElements` still record a
history entry.) -/
theorem noop_failure_policy (op : StoreOp) (s : Store) (hwf : WF s)
    (h : opPrecondFails op s) :
    activeElements (applyStoreOp op s) = activeElements s
      ∧ (applyStoreOp op s).clipboard = s.clipboard
      ∧ (s.project = none →
          (applyStoreOp op s).project = none
            ∧ (applyStoreOp op s).past = s.past
            ∧ (applyStoreOp op s).future = s.future) := by
  cases hp : s.project with
  | none =>
    obtain ⟨h1, h2, h3, h4⟩ := applyStoreOp_no_project op s hp
    refine ⟨?_, h4, fun _ => ⟨h1, h2, h3⟩⟩
    rw [show activeElements (applyStoreOp op s) = [] from by simp [activeElements, h1]]
    rw [show activeElements s = [] from by simp [activeElements, hp]]
  | some pr =>
    have hmem : ∀ el ∈ activeElements s, el.id ∈ activeIds s := by
      intro el hel
      exact List.mem_map_of_mem (fun e => e.id) hel
    rcases h with h0 | habs
    · rw [hp] at h0
      cases h0
    · cases op with
      | addEl el => exact habs.elim
      | addText o => exact habs.elim
      | addImage src o => exact habs.elim
      | addShape st o => exact habs.elim
      | pasteOp => exact habs.elim
      | update i u =>
        have hne : ∀ el ∈ activeElements s, el.id ≠ i := by
          intro el hel heq
          exact habs (heq ▸ hmem el hel)
        have hform : applyStoreOp (StoreOp.update i u) s
            = setActiveElements s ((activeElements s).map
                (fun el => if el.id == i then mergeElement el u else el)) := by
          simp [applyStoreOp, updateElement, hp]
        refine ⟨?_, ?_, fun hnone => Option.noConfusion hnone⟩
        · rw [hform, activeElements_setActiveElements s _ pr hp (hwf pr hp)]
          exact map_update_id_of_absent _ i _ hne
        · rw [hform, setActiveElements_clipboard]
      | remove ids =>
        have hfilter : (activeElements s).filter (fun el => !(ids.contains el.id))
            = activeElements s := filter_not_contains_of_absent _ ids s hmem habs
        have hform : applyStoreOp (StoreOp.remove ids) s
            = pushState ("Delete " ++ toString ids.length ++ " element(s)")
                { setActiveElements s
                    ((activeElements s).filter (fun el => !(ids.contains el.id))) with
                  selectedIds :=
                    (setActiveElements s
                        ((activeElements s).filter
                          (fun el => !(ids.contains el.id)))).selectedIds.filter
                      (fun i => !(ids.contains i)) } := by
          simp [applyStoreOp, removeElement, hp, pushHistoryAfter]
        refine ⟨?_, ?_, fun hnone => Option.noConfusion hnone⟩
        · rw [hform, pushState_activeElements, activeElements_setSelected,
            activeElements_setActiveElements s _ pr hp (hwf pr hp)]
          exact hfilter
        · rw [hform, pushState_clipboard]
          exact setActiveElements_clipboard s _
      | dup ids =>
        have hclip : ((duplicateElements ids s).2).clipboard = s.clipboard :=
          duplicateElements_clipboard ids s
        have htarget : ∀ l : List String, idsAbsent l s → ¬ l = [] →
            activeElements (duplicateElements (some l) s).2 = activeElements s := by
          intro l habs' hl
          rw [duplicateElements_spec s pr l hp hwf hl,
            filter_contains_empty_of_absent _ l s hmem habs']
          simp
        cases ids with
        | some l =>
          by_cases hl : l = []
          · have : duplicateElements (some l) s = ([], s) := by
              rw [hl]
              rfl
            refine ⟨?_, ?_, fun hnone => Option.noConfusion hnone⟩ <;> simp [applyStoreOp, this]
          · exact ⟨htarget l habs hl, hclip, fun hnone => Option.noConfusion hnone⟩
        | none =>
          by_cases hl : s.selectedIds = []
          · have : duplicateElements none s = ([], s) := by
              rw [duplicateElements_none_eq, hl]
              rfl
            refine ⟨?_, ?_, fun hnone => Option.noConfusion hnone⟩ <;> simp [applyStoreOp, this]
          · refine ⟨?_, hclip, fun hnone => Option.noConfusion hnone⟩
            show activeElements (duplicateElements none s).2 = activeElements s
            rw [duplicateElements_none_eq]
            exact htarget s.selectedIds habs hl
      | updTrans i t =>
        have hfind := find?_eq_none_of_absent (activeElements s) i s hmem habs
        have : applyStoreOp (StoreOp.updTrans i t) s = s := by
          simp [applyStoreOp, updateTransform, hfind]
        rw [this]
        exact ⟨rfl, rfl, fun hnone => Option.noConfusion hnone⟩
      | updStyle i st =>
        have hfind := find?_eq_none_of_absent (activeElements s) i s hmem habs
        have : applyStoreOp (StoreOp.updStyle i st) s = s := by
          simp [applyStoreOp, updateStyle, hfind]
        rw [this]
        exact ⟨rfl, rfl, fun hnone => Option.noConfusion hnone⟩
      | bringFwd i =>
        have hfind := find?_eq_none_of_absent (activeElements s) i s hmem habs
        have : applyStoreOp (StoreOp.bringFwd i) s = s := by
          simp [applyStoreOp, bringForward, hfind]
        rw [this]
        exact ⟨rfl, rfl, fun hnone => Option.noConfusion hnone⟩
      | sendBwd i =>
        have hfind := find?_eq_none_of_absent (activeElements s) i s hmem habs
        have : applyStoreOp (StoreOp.sendBwd i) s = s := by
          simp [applyStoreOp, sendBackward, hfind]
        rw [this]
        exact ⟨rfl, rfl, fun hnone => Option.noConfusion hnone⟩
      | toggleVis i =>
        have hfind := find?_eq_none_of_absent (activeElements s) i s hmem habs
        have : applyStoreOp (StoreOp.toggleVis i) s = s := by
          simp [applyStoreOp, toggleVisibility, hfind]
        rw [this]
        exact ⟨rfl, rfl, fun hnone => Option.noConfusion hnone⟩
      | bringFront i =>
        have hne : ∀ el ∈ activeElements s, el.id ≠ i := by
          intro el hel heq
          exact habs (heq ▸ hmem el hel)
        have hform : applyStoreOp (StoreOp.bringFront i) s
            = setActiveElements s ((activeElements s).map
                (fun el => if el.id == i
                  then mergeElement el { zIndex := some (maxZRaw (activeElements s) + 1) }
                  else el)) := by
          simp [applyStoreOp, bringToFront, updateElement, hp]
        refine ⟨?_, ?_, fun hnone => Option.noConfusion hnone⟩
        · rw [hform, activeElements_setActiveElements s _ pr hp (hwf pr hp)]
          exact map_update_id_of_absent _ i _ hne
        · rw [hform, setActiveElements_clipboard]
      | sendBack i =>
        have hne : ∀ el ∈ activeElements s, el.id ≠ i := by
          intro el hel heq
          exact habs (heq ▸ hmem el hel)
        have hform : applyStoreOp (StoreOp.sendBack i) s
            = setActiveElements s ((activeElements s).map
                (fun el => if el.id == i
                  then mergeElement el { zIndex := some (minZRaw (activeElements s) - 1) }
                  else el)) := by
          simp [applyStoreOp, sendToBack, updateElement, hp]
        refine ⟨?_, ?_, fun hnone => Option.noConfusion hnone⟩
        · rw [hform, activeElements_setActiveElements s _ pr hp (hwf pr hp)]
          exact map_update_id_of_absent _ i _ hne
        · rw [hform, setActiveElements_clipboard]
      | lock i =>
        have hne : ∀ el ∈ activeElements s, el.id ≠ i := by
          intro el hel heq
          exact habs (heq ▸ hmem el hel)
        have hform : applyStoreOp (StoreOp.lock i) s
            = { updateElement i { locked := some true, selectable := some false } s with
                selectedIds :=
                  (updateElement i { locked := some true, selectable := some false }
                      s).selectedIds.filter (fun x => !(x == i)) } := by
          simp [applyStoreOp, lockElement]
        have hupd : updateElement i { locked := some true, selectable := some false } s
            = setActiveElements s ((activeElements s).map
                (fun el => if el.id == i
                  then mergeElement el { locked := some true, selectable := some false }
                  else el)) := by
          simp [updateElement, hp]
        refine ⟨?_, ?_, fun hnone => Option.noConfusion hnone⟩
        · rw [hform, activeElements_setSelected, hupd,
            activeElements_setActiveElements s _ pr hp (hwf pr hp)]
          exact map_update_id_of_absent _ i _ hne
        · rw [hform]
          show (updateElement i _ s).clipboard = s.clipboard
          rw [hupd, setActiveElements_clipboard]
      | unlock i =>
        have hne : ∀ el ∈ activeElements s, el.id ≠ i := by
          intro el hel heq
          exact habs (heq ▸ hmem el hel)
        have hform : applyStoreOp (StoreOp.unlock i) s
            = setActiveElements s ((activeElements s).map
                (fun el => if el.id == i
                  then mergeElement el { locked := some false, selectable := some true }
                  else el)) := by
          simp [applyStoreOp, unlockElement, updateElement, hp]
        refine ⟨?_, ?_, fun hnone => Option.noConfusion hnone⟩
        · rw [hform, activeElements_setActiveElements s _ pr hp (hwf pr hp)]
          exact map_update_id_of_absent _ i _ hne
        · rw [hform, setActiveElements_clipboard]

/-- Store with no project but a (stale) nonempty selection — reachable,
since `select` does not consult the project. -/
def orphanSelectionStore : Store :=
  { initStore none with selectedIds := ["a"] }

/-- C8 counterexample: `duplicateElements` invoked with no project does
NOT leave all store state unchanged — it rewrites `selectedIds` to the
(empty) list of duplicated ids, so the resulting store differs from the
original. -/
theorem noop_failure_policy_counterexample :
    orphanSelectionStore.project = none
      ∧ orphanSelectionStore.selectedIds = ["a"]
      ∧ ((duplicateElements none orphanSelectionStore).2).selectedIds = []
      ∧ (duplicateElements none orphanSelectionStore).2 ≠ orphanSelectionStore := by
  refine ⟨rfl, rfl, by decide, ?_⟩
  intro h
  have := congrArg Store.selectedIds h
  simp only [show ((duplicateElements none orphanSelectionStore).2).selectedIds = []
    from by decide] at this
  exact absurd this (by decide)

/-- Witness for the amended C8 theorem: `duplicateElements` with no
project leaves the document, clipboard, project slot and history
untouched. -/
theorem noop_failure_policy_witness :
    activeElements (applyStoreOp (StoreOp.dup none) orphanSelectionStore)
        = activeElements orphanSelectionStore
      ∧ (applyStoreOp (StoreOp.dup none) orphanSelectionStore).clipboard
        = orphanSelectionStore.clipboard
      ∧ (applyStoreOp (StoreOp.dup none) orphanSelectionStore).past
        = orphanSelectionStore.past
      ∧ (applyStoreOp (StoreOp.dup none) orphanSelectionStore).project = none := by
  have h := noop_failure_policy (StoreOp.dup none) orphanSelectionStore
    (fun pr hpr => Option.noConfusion hpr) (Or.inl rfl)
  exact ⟨h.1, h.2.1, (h.2.2 rfl).2.1, (h.2.2 rfl).1⟩

end NoopPolicy

section CropCoordinates

lemma jsOr1_of_ne {q : ℚ} (h : q ≠ 0) : jsOr1 q = q :=
  if_neg h

lemma abs_mul_signum (q : ℚ) : |q| * (if 0 ≤ q then (1 : ℚ) else -1) = q := by
  by_cases h : 0 ≤ q
  · rw [if_pos h, abs_of_nonneg h, mul_one]
  · rw [if_neg h, abs_of_neg (lt_of_not_ge h)]
    ring

/-- The update `applyCrop` hands to `updateElement` on its success path:
the rasterized source carrying the computed image-local crop rectangle,
the recomputed transform, and a cleared `crop` field. -/
def cropPatch (e : Element) (f : FabricImg) (r : CropRect) : ElementPatch where
  src := some (ImageSrc.cropped e.src
    ((r.x - (f.left - f.width * |jsOr1 f.scaleX| / 2)) / |jsOr1 f.scaleX|)
    ((r.y - (f.top - f.height * |jsOr1 f.scaleY| / 2)) / |jsOr1 f.scaleY|)
    (r.width / |jsOr1 f.scaleX|)
    (r.height / |jsOr1 f.scaleY|))
  transform := some
    { e.transform with
      x := r.x + r.width / 2
      y := r.y + r.height / 2
      width := r.width / |jsOr1 f.scaleX|
      height := r.height / |jsOr1 f.scaleY|
      scaleX := |jsOr1 f.scaleX| * (if 0 ≤ e.transform.scaleX then 1 else -1)
      scaleY := |jsOr1 f.scaleY| * (if 0 ≤ e.transform.scaleY then 1 else -1) }
  crop := some none

/-- Looking up the updated id after `updateElement` yields the merged
element. -/
lemma getElement_updateElement (s : Store) (pr : Project) (i : String) (u : ElementPatch)
    (hp : s.project = some pr) (hwf : WF s) (hu : u.id = none) (e : Element)
    (hg : getElement i s = some e) :
    getElement i (updateElement i u s) = some (mergeElement e u) := by
  unfold getElement at *
  rw [activeElements_updateElement s pr i u hp hwf, find?_id_map_update _ _ _ hu, hg]
  rfl

/-- C3, crop coordinate correctness: for an image element on the page
whose render object mirrors its transform (position, size, nonzero
scales), applying the crop with all resources available computes the
image-local crop rectangle as `(world - imageTopLeft) / |scale|` per
axis (recorded in the rasterized source), and commits an element whose
center is the crop rectangle's center, whose width/height are the local
crop dimensions (so its rendered size equals the crop rectangle's
dimensions), whose scales keep their prior sign (indeed their prior
value), and whose `crop` field is null. -/
theorem crop_coordinates_correct (s : Store) (pr : Project) (env : CropEnv) (r : CropRect)
    (i : String) (e : Element) (f : FabricImg)
    (hp : s.project = some pr) (hwf : WF s)
    (hb : s.cropBounds = some r) (hi : s.cropElementId = some i)
    (hg : getElement i s = some e) (ht : e.type = ElemType.image)
    (hf : env.fabricObj = some f)
    (hie : env.imgElement = true) (hc : env.ctx = true) (hload : env.imageLoads = true)
    (hfx : f.left = e.transform.x) (hfy : f.top = e.transform.y)
    (hfsx : f.scaleX = e.transform.scaleX) (hfsy : f.scaleY = e.transform.scaleY)
    (hfw : f.width = e.transform.width) (hfh : f.height = e.transform.height)
    (hsx : e.transform.scaleX ≠ 0) (hsy : e.transform.scaleY ≠ 0) :
    ∃ e', getElement i (applyCrop env s) = some e'
      ∧ e'.transform.x = r.x + r.width / 2
      ∧ e'.transform.y = r.y + r.height / 2
      ∧ e'.transform.width = r.width / |e.transform.scaleX|
      ∧ e'.transform.height = r.height / |e.transform.scaleY|
      ∧ e'.transform.scaleX = e.transform.scaleX
      ∧ e'.transform.scaleY = e.transform.scaleY
      ∧ e'.transform.width * |e'.transform.scaleX| = r.width
      ∧ e'.transform.height * |e'.transform.scaleY| = r.height
      ∧ e'.crop = none
      ∧ e'.src = ImageSrc.cropped e.src
          ((r.x - (e.transform.x - e.transform.width * |e.transform.scaleX| / 2))
            / |e.transform.scaleX|)
          ((r.y - (e.transform.y - e.transform.height * |e.transform.scaleY| / 2))
            / |e.transform.scaleY|)
          (r.width / |e.transform.scaleX|)
          (r.height / |e.transform.scaleY|) := by
  have hSX : |jsOr1 f.scaleX| = |e.transform.scaleX| := by
    rw [hfsx, jsOr1_of_ne hsx]
  have hSY : |jsOr1 f.scaleY| = |e.transform.scaleY| := by
    rw [hfsy, jsOr1_of_ne hsy]
  have hform : applyCrop env s
      = pushState "Crop image"
          (updateElement i (cropPatch e f r)
            { s with cropMode := false, cropBounds := none, cropElementId := none }) := by
    simp only [applyCrop, hb, hi, hg, ht, hf, hie, hc, hload, pushHistoryAfter, if_true,
      cropPatch]
  have hpush : getElement i (pushState "Crop image"
        (updateElement i (cropPatch e f r)
          { s with cropMode := false, cropBounds := none, cropElementId := none }))
      = getElement i (updateElement i (cropPatch e f r)
          { s with cropMode := false, cropBounds := none, cropElementId := none }) := by
    unfold getElement
    rw [pushState_activeElements]
  have hfind : getElement i (applyCrop env s) = some (mergeElement e (cropPatch e f r)) := by
    rw [hform, hpush]
    exact getElement_updateElement
      ({ s with cropMode := false, cropBounds := none, cropElementId := none }) pr i
      (cropPatch e f r) hp (WF_congr rfl hwf) rfl e hg
  have hsxEq : (mergeElement e (cropPatch e f r)).transform.scaleX = e.transform.scaleX := by
    show |jsOr1 f.scaleX| * (if 0 ≤ e.transform.scaleX then 1 else -1) = e.transform.scaleX
    rw [hfsx, jsOr1_of_ne hsx]
    exact abs_mul_signum _
  have hsyEq : (mergeElement e (cropPatch e f r)).transform.scaleY = e.transform.scaleY := by
    show |jsOr1 f.scaleY| * (if 0 ≤ e.transform.scaleY then 1 else -1) = e.transform.scaleY
    rw [hfsy, jsOr1_of_ne hsy]
    exact abs_mul_signum _
  have hwEq : (mergeElement e (cropPatch e f r)).transform.width
      = r.width / |e.transform.scaleX| := by
    show r.width / |jsOr1 f.scaleX| = _
    rw [hSX]
  have hhEq : (mergeElement e (cropPatch e f r)).transform.height
      = r.height / |e.transform.scaleY| := by
    show r.height / |jsOr1 f.scaleY| = _
    rw [hSY]
  refine ⟨mergeElement e (cropPatch e f r), hfind, rfl, rfl, hwEq, hhEq, hsxEq, hsyEq,
    ?_, ?_, rfl, ?_⟩
  · rw [hwEq, hsxEq]
    exact div_mul_cancel₀ r.width (abs_ne_zero.mpr hsx)
  · rw [hhEq, hsyEq]
    exact div_mul_cancel₀ r.height (abs_ne_zero.mpr hsy)
  · show ImageSrc.cropped e.src
        ((r.x - (f.left - f.width * |jsOr1 f.scaleX| / 2)) / |jsOr1 f.scaleX|)
        ((r.y - (f.top - f.height * |jsOr1 f.scaleY| / 2)) / |jsOr1 f.scaleY|)
        (r.width / |jsOr1 f.scaleX|)
        (r.height / |jsOr1 f.scaleY|) = _
    rw [hfx, hfy, hfw, hfh, hSX, hSY]

/-- World-space crop rectangle for the witness. -/
def cropDemoRect : CropRect where
  x := 10
  y := 20
  width := 50
  height := 40

/-- Crop session over the demo image with the witness rectangle. -/
def cropWitnessStore : Store :=
  setCropBounds cropDemoRect (setCropMode true (some "img1") (initStore (some cropDemoDoc)))

/-- Witness for C3: applying the crop to the demo image with the
witness rectangle commits an element centered on the rectangle with the
computed local dimensions and a cleared crop field. -/
theorem crop_coordinates_correct_witness :
    ∃ e', getElement "img1" (applyCrop cropFullEnv cropWitnessStore) = some e'
      ∧ e'.transform.x = cropDemoRect.x + cropDemoRect.width / 2
      ∧ e'.transform.y = cropDemoRect.y + cropDemoRect.height / 2
      ∧ e'.transform.width = cropDemoRect.width / |cropImageElement.transform.scaleX|
      ∧ e'.transform.height = cropDemoRect.height / |cropImageElement.transform.scaleY|
      ∧ e'.transform.scaleX = cropImageElement.transform.scaleX
      ∧ e'.transform.scaleY = cropImageElement.transform.scaleY
      ∧ e'.transform.width * |e'.transform.scaleX| = cropDemoRect.width
      ∧ e'.transform.height * |e'.transform.scaleY| = cropDemoRect.height
      ∧ e'.crop = none
      ∧ e'.src = ImageSrc.cropped cropImageElement.src
          ((cropDemoRect.x - (cropImageElement.transform.x
              - cropImageElement.transform.width * |cropImageElement.transform.scaleX| / 2))
            / |cropImageElement.transform.scaleX|)
          ((cropDemoRect.y - (cropImageElement.transform.y
              - cropImageElement.transform.height * |cropImageElement.transform.scaleY| / 2))
            / |cropImageElement.transform.scaleY|)
          (cropDemoRect.width / |cropImageElement.transform.scaleX|)
          (cropDemoRect.height / |cropImageElement.transform.scaleY|) :=
  crop_coordinates_correct cropWitnessStore cropDemoDoc cropFullEnv cropDemoRect "img1"
    cropImageElement cropFullFabric rfl (WF_of_proj rfl (by decide)) rfl (by decide)
    (by decide) rfl rfl rfl rfl rfl rfl rfl rfl rfl rfl rfl (by decide) (by decide)

end CropCoordinates

end ImageEdit
